import Mathlib

/-!
Shallow embedding of the tandarr multiplayer session engine
(`src/server/services/deck-builder.ts` and `src/server/services/room-manager.ts`).

JavaScript `Map`s are modelled as insertion-ordered association lists
(`List (String × α)`), `Set`s as insertion-ordered `List String`.
JS numbers are modelled as `ℚ` (weights, timestamps) or `Int`.
`Math.random()` draws are passed in explicitly as a stream `rands : Nat → ℚ`
of values in `[0, 1)`; the Fisher-Yates shuffle of wildcard candidates is
passed in as a permutation-producing function.
-/

namespace Tandarr

/-! ## JS `Map` / `Set` as insertion-ordered association lists -/

/-- `Map.get(k)`: the value of the binding of `k` (JS maps hold each key at
most once, so first-binding lookup is exact). -/
def mapGet {α : Type} : List (String × α) → String → Option α
  | [], _ => none
  | p :: m, k => if p.1 = k then some p.2 else mapGet m k

/-- `Map.set(k, v)`: update in place when the key exists, else append. -/
def mapSet {α : Type} : List (String × α) → String → α → List (String × α)
  | [], k, v => [(k, v)]
  | p :: m, k, v => if p.1 = k then (k, v) :: m else p :: mapSet m k v

/-- `Map.delete(k)`. -/
def mapDelete {α : Type} (m : List (String × α)) (k : String) : List (String × α) :=
  m.filter (fun p => decide (p.1 ≠ k))

/-- Keys of a map, in insertion order. -/
def mapKeys {α : Type} (m : List (String × α)) : List String :=
  m.map Prod.fst

/-- `Set.add(x)`: append when absent. -/
def setAdd (s : List String) (x : String) : List String :=
  if s.contains x then s else s ++ [x]

/-- `Set.delete(x)`. -/
def setDelete (s : List String) (x : String) : List String :=
  s.filter (fun y => decide (y ≠ x))

/-! ## Shared data model (`src/shared/types.ts`) -/

/-- Catalog item as cached from the library (`Movie` in `shared/types.ts`). -/
structure Movie where
  ratingKey : String
  title : String
  year : Int
  genres : List String
  rating : Option ℚ
  audienceRating : Option ℚ
  duration : ℚ
  summary : String
  contentRating : String
  viewCount : Nat
  addedAt : Int
deriving DecidableEq, Repr

/-- One participant's filter criteria (`UserFilterState`). -/
structure UserFilterState where
  selectedGenres : List String
  selectedDecades : List String
  hideWatched : Bool
  excludedKeys : List String
deriving DecidableEq, Repr

inductive DeckOptionIntensity | low | medium | high
deriving DecidableEq, Repr

structure DeckOptionEntry where
  enabled : Bool
  intensity : DeckOptionIntensity
deriving DecidableEq, Repr

structure DeckOptions where
  wildCards : DeckOptionEntry
  boostRightSwipes : DeckOptionEntry
  demoteLeftSwipes : DeckOptionEntry
  recentlyReleasedBoost : DeckOptionEntry
  recentlyAddedBoost : DeckOptionEntry
deriving DecidableEq, Repr

def DEFAULT_DECK_OPTIONS : DeckOptions :=
  { wildCards := ⟨true, .medium⟩
    boostRightSwipes := ⟨true, .medium⟩
    demoteLeftSwipes := ⟨true, .medium⟩
    recentlyReleasedBoost := ⟨true, .medium⟩
    recentlyAddedBoost := ⟨true, .medium⟩ }

/-- Display-safe projection of a catalog item (`DeckCard`): no `viewCount`. -/
structure DeckCard where
  ratingKey : String
  title : String
  year : Int
  genres : List String
  rating : Option ℚ
  audienceRating : Option ℚ
  duration : ℚ
  summary : String
  contentRating : String
  addedAt : Int
deriving DecidableEq, Repr

/-! ## Deck / probability engine (`deck-builder.ts`) -/

/-- `INTENSITY_MAP`. -/
def intensityMap : DeckOptionIntensity → ℚ
  | .low => 3/2
  | .medium => 3
  | .high => 6

/-- `WILD_CARD_PERCENT`. -/
def wildCardPercent : DeckOptionIntensity → ℚ
  | .low => 1/20
  | .medium => 1/10
  | .high => 1/5

structure PoolEntry where
  card : DeckCard
  baseWeight : ℚ
  dynamicWeight : ℚ
  isWildCard : Bool
deriving DecidableEq, Repr

/-- Per-participant probability pool: three partitions keyed by `ratingKey`. -/
structure ProbabilityPool where
  unseen : List (String × PoolEntry)
  served : List (String × PoolEntry)
  swiped : List (String × PoolEntry)
  totalSize : Nat
deriving DecidableEq, Repr

/-- JS `Math.round`: round half toward positive infinity, i.e.
`⌊q + 1/2⌋` (stated executably; see `jsRound_eq_floor`). -/
def jsRound (q : ℚ) : Int := (q + 1/2).num / ((q + 1/2).den : Int)

theorem jsRound_eq_floor (q : ℚ) : jsRound q = Int.floor (q + 1/2) := by
  rw [jsRound, Rat.floor_def]

/-- `moviePassesFilter(movie, filter)` — single source of truth for filtering. -/
def moviePassesFilter (movie : Movie) (filter : UserFilterState) : Bool :=
  if filter.selectedGenres.length > 0 &&
      !(movie.genres.any (fun g => filter.selectedGenres.contains g)) then false
  else if filter.selectedDecades.length > 0 &&
      !(filter.selectedDecades.contains (toString (Int.fdiv movie.year 10 * 10) ++ "s")) then false
  else if filter.hideWatched && movie.viewCount > 0 then false
  else if filter.excludedKeys.contains movie.ratingKey then false
  else true

/-- `movieToDeckCard(movie)`. -/
def movieToDeckCard (movie : Movie) : DeckCard :=
  { ratingKey := movie.ratingKey
    title := movie.title
    year := movie.year
    genres := movie.genres
    rating := movie.rating
    audienceRating := movie.audienceRating
    duration := movie.duration
    summary := movie.summary
    contentRating := movie.contentRating
    addedAt := movie.addedAt }

/-- `computeCardWeight(card, options, now)`; `currentYear` stands for
`new Date(now).getFullYear()` and `now` is milliseconds. -/
def computeCardWeight (card : DeckCard) (options : DeckOptions)
    (now : Int) (currentYear : Int) : ℚ :=
  let w0 : ℚ := 1
  let w1 : ℚ :=
    if options.recentlyReleasedBoost.enabled then
      let recency : ℚ :=
        max 0 (min 1 (((card.year : ℚ) - 1950) / ((currentYear : ℚ) - 1950)))
      w0 + recency * intensityMap options.recentlyReleasedBoost.intensity
    else w0
  let w2 : ℚ :=
    if options.recentlyAddedBoost.enabled then
      let ageMs : ℚ := (now : ℚ) - (card.addedAt : ℚ) * 1000
      let addedRecency : ℚ := max 0 (1 - ageMs / (365 * 24 * 60 * 60 * 1000))
      w1 + addedRecency * intensityMap options.recentlyAddedBoost.intensity
    else w1
  max w2 (1/100)

/-- `injectWildCards(cards, allMovies, deckKeys, options)`. The Fisher-Yates
shuffle of the candidate pool is passed in as `shuffle` (a permutation). -/
def injectWildCards (shuffle : List Movie → List Movie)
    (cards : List DeckCard) (allMovies : List Movie) (deckKeys : List String)
    (options : DeckOptions) : List DeckCard × List String :=
  if !options.wildCards.enabled then (cards, []) else
  let percent := wildCardPercent options.wildCards.intensity
  let count : Int := max 1 (jsRound ((cards.length : ℚ) * percent))
  let candidates := allMovies.filter (fun m => !(deckKeys.contains m.ratingKey))
  if candidates.length = 0 then (cards, []) else
  let sampleSize := min count.toNat candidates.length
  let selected := (shuffle candidates).take sampleSize
  (cards ++ selected.map movieToDeckCard, selected.map Movie.ratingKey)

/-- `buildMasterPool(allMovies, filters, options)`. -/
def buildMasterPool (shuffle : List Movie → List Movie)
    (allMovies : List Movie) (filters : List UserFilterState)
    (options : DeckOptions) : List DeckCard × List String :=
  let intersection :=
    allMovies.filter (fun movie => filters.all (fun f => moviePassesFilter movie f))
  let cards := intersection.map movieToDeckCard
  let deckKeys := cards.map DeckCard.ratingKey
  injectWildCards shuffle cards allMovies deckKeys options

/-- `initProbabilityPool(cards, wildCardKeys, options)`; `now`/`currentYear`
as in `computeCardWeight`. -/
def initProbabilityPool (cards : List DeckCard) (wildCardKeys : List String)
    (options : DeckOptions) (now : Int) (currentYear : Int) : ProbabilityPool :=
  let unseen := cards.foldl
    (fun m card =>
      let baseWeight := computeCardWeight card options now currentYear
      mapSet m card.ratingKey
        { card := card
          baseWeight := baseWeight
          dynamicWeight := baseWeight
          isWildCard := wildCardKeys.contains card.ratingKey })
    []
  { unseen := unseen, served := [], swiped := [], totalSize := cards.length }

/-- Inner walk of one weighted draw: `random -= w; if (random <= 0) break`.
Returns the index of the selected candidate, if any weight prefix absorbs
the cursor. -/
def pickIdx : List ℚ → ℚ → Option Nat
  | [], _ => none
  | w :: ws, r => if r - w ≤ 0 then some 0 else (pickIdx ws (r - w)).map Nat.succ

/-- One draw of `sampleFromPool`'s loop: draw `Math.random() * totalWeight`
and walk the remaining candidates; returns the selected index and candidate,
or `none` when the walk selects nothing. -/
def sampleStep (rands : Nat → ℚ) (i : Nat)
    (candidates : List (String × PoolEntry × ℚ)) :
    Option (Nat × (String × PoolEntry × ℚ)) :=
  let total := (candidates.map (fun c => c.2.2)).sum
  let random := rands i * total
  match pickIdx (candidates.map (fun c => c.2.2)) random with
  | none => none
  | some j =>
    match candidates[j]? with
    | none => none
    | some c => some (j, c)

/-- The `unseen → served` move performed for each selected candidate. -/
def moveUnseenToServed (pool : ProbabilityPool) (k : String) (e : PoolEntry) :
    ProbabilityPool :=
  { pool with
    unseen := mapDelete pool.unseen k
    served := mapSet pool.served k e }

/-- One iteration state of `sampleFromPool`'s draw loop: `n` draws remain,
`i` indexes the `Math.random()` stream, `candidates` is the working copy
`(key, entry, weight)` with already-chosen entries removed. -/
def sampleLoop (rands : Nat → ℚ) :
    Nat → Nat → List (String × PoolEntry × ℚ) → ProbabilityPool →
    List DeckCard × ProbabilityPool
  | 0, _, _, pool => ([], pool)
  | n + 1, i, candidates, pool =>
    match sampleStep rands i candidates with
    | none => sampleLoop rands n (i + 1) candidates pool
    | some (j, c) =>
      let pool1 := moveUnseenToServed pool c.1 c.2.1
      let rest := sampleLoop rands n (i + 1) (candidates.eraseIdx j) pool1
      (c.2.1.card :: rest.1, rest.2)

/-- `sampleFromPool(pool, count)`: weighted sampling without replacement from
`unseen`, moving each chosen entry to `served`; returns the sampled cards. -/
def sampleFromPool (rands : Nat → ℚ) (pool : ProbabilityPool) (count : Nat) :
    List DeckCard × ProbabilityPool :=
  let available := pool.unseen
  if available.length = 0 then ([], pool) else
  let sampleSize := min count available.length
  let candidates := available.map
    (fun p => (p.1, p.2, max p.2.dynamicWeight (1/100)))
  sampleLoop rands sampleSize 0 candidates pool

inductive SwipeDirection | left | right
deriving DecidableEq, Repr

/-- `updatePoolWeights(pool, ratingKey, direction, options)`. -/
def updatePoolWeights (pool : ProbabilityPool) (ratingKey : String)
    (direction : SwipeDirection) (options : DeckOptions) : ProbabilityPool :=
  match mapGet pool.unseen ratingKey with
  | none => pool
  | some entry =>
    let entry1 :=
      if direction = .right ∧ options.boostRightSwipes.enabled then
        { entry with dynamicWeight :=
            entry.dynamicWeight + intensityMap options.boostRightSwipes.intensity }
      else entry
    let entry2 :=
      if direction = .left ∧ options.demoteLeftSwipes.enabled then
        let lowered := entry1.dynamicWeight - intensityMap options.demoteLeftSwipes.intensity
        { entry1 with dynamicWeight := max lowered (1/100) }
      else entry1
    { pool with unseen := mapSet pool.unseen ratingKey entry2 }

/-! ## Avatar helpers (`src/shared/avatar.ts`) -/

def AVATAR_COLORS : List String :=
  ["#E57373", "#F06292", "#BA68C8", "#9575CD", "#7986CB", "#64B5F6",
   "#4FC3F7", "#4DB6AC", "#81C784", "#AED581", "#FFD54F", "#FFB74D"]

/-- Wrap to a signed 32-bit integer (JS `x & x` / `<<` coercion). -/
def toInt32 (x : Int) : Int := (x + 2 ^ 31) % 2 ^ 32 - 2 ^ 31

/-- The `charCodeAt`-based hash loop of `getAvatarColor`. -/
def avatarHash : List Nat → Int → Int
  | [], h => h
  | c :: cs, h => avatarHash cs (toInt32 ((c : Int) + (toInt32 (h * 32) - h)))

def getAvatarColor (nickname : String) : String :=
  let h := avatarHash (nickname.toList.map Char.toNat) 0
  (AVATAR_COLORS.get? (h.natAbs % AVATAR_COLORS.length)).getD ""

def getInitial (nickname : String) : String :=
  match nickname.toList with
  | [] => ""
  | c :: _ => String.singleton c.toUpper

/-! ## Room & session registry (`room-manager.ts`) -/

def INITIAL_BATCH : Nat := 5
def SERVER_MAX_CLAMP : Int := 10
def MAX_PARTICIPANTS : Nat := 4

inductive ConnectionStatus | connected | reconnecting
deriving DecidableEq, Repr

inductive RoomPhase | lobby | filtering | swiping
deriving DecidableEq, Repr

inductive SessionStatus | swiping | sessionEnded
deriving DecidableEq, Repr

/-- Server-side `Participant`; the live socket is a nullable handle. -/
structure Participant where
  id : String
  nickname : String
  socket : Option Nat
  color : String
  initial : String
  isHost : Bool
  sessionToken : String
  connectionStatus : ConnectionStatus
  disconnectedAt : Option Int
deriving DecidableEq, Repr

/-- Server-side `Room`. -/
structure Room where
  code : String
  hostId : String
  participants : List (String × Participant)
  createdAt : Int
  phase : RoomPhase
  filterStates : List (String × UserFilterState)
  readyParticipants : List String
  deckOptions : DeckOptions
  masterCards : Option (List DeckCard)
  probabilityPools : List (String × ProbabilityPool)
  rightSwipeCounts : List (String × Nat)
  leftSwipeCounts : List (String × Nat)
  swipeVotes : List (String × List String)
  swipeCounts : List (String × Nat)
  sessionStatus : SessionStatus
deriving DecidableEq, Repr

structure ParticipantInfo where
  id : String
  nickname : String
  color : String
  initial : String
  isHost : Bool
  connectionStatus : ConnectionStatus
deriving DecidableEq, Repr

structure RoomInfo where
  code : String
  you : Option ParticipantInfo
  participants : List ParticipantInfo
  sessionToken : Option String
  phase : RoomPhase
deriving DecidableEq, Repr

structure NearMiss where
  card : DeckCard
  agreement : Int
deriving DecidableEq, Repr

/-- Outbound events emitted by the modelled handlers. -/
inductive ServerMsg
  | participantJoined (participant : ParticipantInfo)
  | participantLeft (participantId : String) (newHostId : Option String)
  | participantStatusChanged (participantId : String) (status : ConnectionStatus)
  | kicked (reason : String)
  | startFiltering
  | participantReady (participantId : String)
  | participantUnready (participantId : String)
  | overlapCount (count : Nat)
  | swipingStarted (totalPoolSize : Nat) (cards : List DeckCard) (swipedSoFar : Option Nat)
  | cardsServed (cards : List DeckCard)
  | matchFound (card : DeckCard)
  | matchDismissed (ratingKey : String)
  | sessionEnded (card : DeckCard) (selectedBy : String)
  | swipeProgress (ratingKey : String) (swipedCount : Nat) (totalParticipants : Nat)
  | noMatch (nearMisses : List NearMiss)
deriving DecidableEq, Repr

/-- Module-level registry state around a single room (`rooms` keyed lookup is
collapsed to the one room the claims talk about). -/
structure ManagerState where
  room : Option Room
  sessionTokenToRoom : List (String × String)
  sessionTokenToId : List (String × String)
  disconnectTimers : List String
deriving DecidableEq, Repr

def toParticipantInfo (p : Participant) : ParticipantInfo :=
  { id := p.id
    nickname := p.nickname
    color := p.color
    initial := p.initial
    isHost := p.isHost
    connectionStatus := p.connectionStatus }

def toRoomInfo (room : Room) (forId : String) (sessionToken : Option String) :
    RoomInfo :=
  let participants := room.participants.map (fun p => toParticipantInfo p.2)
  { code := room.code
    you := participants.find? (fun p => p.id == forId)
    participants := participants
    sessionToken := sessionToken
    phase := room.phase }

def deduplicateNickname (nickname : String) (room : Room) (nowMod1000 : Nat) :
    String :=
  let existing := room.participants.map (fun p => p.2.nickname.toLower)
  if !existing.contains nickname.toLower then nickname
  else
    let tries := (List.range (room.participants.length + 1)).map (fun i => i + 2)
    match tries.find? (fun i => !existing.contains (nickname ++ toString i).toLower) with
    | some i => nickname ++ toString i
    | none => nickname ++ toString nowMod1000

def validateNickname (nickname : String) : Option String :=
  if nickname.length < 2 then some "Nickname must be at least 2 characters."
  else if nickname.length > 12 then some "Nickname must be at most 12 characters."
  else none

/-- `removeParticipant(room, participantId)` together with its module-state
cleanup; destroying the room is `room := none`. -/
def removeParticipant (st : ManagerState) (participantId : String) :
    ManagerState × List ServerMsg :=
  match st.room with
  | none => (st, [])
  | some room =>
    match mapGet room.participants participantId with
    | none => (st, [])
    | some participant =>
      let tokToRoom := mapDelete st.sessionTokenToRoom participant.sessionToken
      let tokToId := mapDelete st.sessionTokenToId participant.sessionToken
      let timers := setDelete st.disconnectTimers participantId
      let room1 : Room :=
        { room with
          filterStates := mapDelete room.filterStates participantId
          readyParticipants := setDelete room.readyParticipants participantId
          probabilityPools := mapDelete room.probabilityPools participantId
          participants := mapDelete room.participants participantId }
      if room1.participants.length = 0 then
        let st1 : ManagerState := {
          room := none
          sessionTokenToRoom := tokToRoom
          sessionTokenToId := tokToId
          disconnectTimers := timers }
        (st1, [])
      else
        let transferred : Room × Option String :=
          if room1.hostId == participantId then
            match room1.participants with
            | [] => (room1, none)
            | (nid, np) :: rest =>
              ({ room1 with
                 participants := (nid, { np with isHost := true }) :: rest
                 hostId := nid }, some nid)
          else (room1, none)
        let st1 : ManagerState := {
          room := some transferred.1
          sessionTokenToRoom := tokToRoom
          sessionTokenToId := tokToId
          disconnectTimers := timers }
        (st1, [.participantLeft participantId transferred.2])

/-- `createRoom(socket, nickname)`; the generated room code, participant id
and session token are passed in (they come from `generateRoomCode` /
`randomUUID`). -/
def createRoom (socket : Nat) (code id sessionToken nickname : String)
    (now : Int) : Except String Room :=
  match validateNickname nickname with
  | some error => .error error
  | none =>
    let participant : Participant :=
      { id := id
        nickname := nickname
        socket := some socket
        color := getAvatarColor nickname
        initial := getInitial nickname
        isHost := true
        sessionToken := sessionToken
        connectionStatus := .connected
        disconnectedAt := none }
    .ok
      { code := code
        hostId := id
        participants := [(id, participant)]
        createdAt := now
        phase := .lobby
        filterStates := []
        readyParticipants := []
        deckOptions := DEFAULT_DECK_OPTIONS
        masterCards := none
        probabilityPools := []
        rightSwipeCounts := []
        leftSwipeCounts := []
        swipeVotes := []
        swipeCounts := []
        sessionStatus := .swiping }

/-- `joinRoom(socket, code, nickname)` after the room lookup has resolved;
the fresh id and session token are passed in. -/
def joinRoom (room : Room) (socket : Nat) (id sessionToken nickname : String)
    (nowMod1000 : Nat) : Except String (Room × List ServerMsg) :=
  match validateNickname nickname with
  | some error => .error error
  | none =>
    if room.participants.length ≥ MAX_PARTICIPANTS then .error "Room is full."
    else
      let dedupedNickname := deduplicateNickname nickname room nowMod1000
      let participant : Participant :=
        { id := id
          nickname := dedupedNickname
          socket := some socket
          color := getAvatarColor dedupedNickname
          initial := getInitial dedupedNickname
          isHost := false
          sessionToken := sessionToken
          connectionStatus := .connected
          disconnectedAt := none }
      let room1 := { room with participants := mapSet room.participants id participant }
      .ok (room1, [.participantJoined (toParticipantInfo participant)])

/-- `handleDisconnect(socket)` after socket-to-participant resolution. -/
def handleDisconnect (st : ManagerState) (participantId : String) (now : Int) :
    ManagerState × List ServerMsg :=
  match st.room with
  | none => (st, [])
  | some room =>
    match mapGet room.participants participantId with
    | none => (st, [])
    | some participant =>
      let p1 := { participant with
        socket := (none : Option Nat)
        connectionStatus := ConnectionStatus.reconnecting
        disconnectedAt := some now }
      let room1 := { room with participants := mapSet room.participants participantId p1 }
      let st1 := { st with
        room := some room1
        disconnectTimers := setAdd st.disconnectTimers participantId }
      (st1, [.participantStatusChanged participantId .reconnecting])

/-- `reconnectParticipant(socket, sessionToken)`: returns the new state, the
room snapshot, the replay sequence for the reconnecting client and the
broadcast to the others. -/
def reconnectParticipant (st : ManagerState) (socket : Nat)
    (sessionToken : String) :
    Except String (ManagerState × RoomInfo × List ServerMsg × List ServerMsg) :=
  match mapGet st.sessionTokenToRoom sessionToken,
        mapGet st.sessionTokenToId sessionToken with
  | some code, some id =>
    match st.room with
    | none => .error "Session expired. Please rejoin the room."
    | some room =>
      if room.code ≠ code then .error "Session expired. Please rejoin the room."
      else
        match mapGet room.participants id with
        | none => .error "Session expired. Please rejoin the room."
        | some participant =>
          let timers := setDelete st.disconnectTimers id
          let p1 := { participant with
            socket := some socket
            connectionStatus := ConnectionStatus.connected
            disconnectedAt := (none : Option Int) }
          let room1 := { room with participants := mapSet room.participants id p1 }
          let roomInfo := toRoomInfo room1 id (some participant.sessionToken)
          let replay1 : List ServerMsg :=
            if room1.phase = .filtering ∨ room1.phase = .swiping then
              ServerMsg.startFiltering ::
                room1.readyParticipants.map (fun readyId => .participantReady readyId)
            else []
          let replay2 : List ServerMsg :=
            if room1.phase = .swiping then
              match mapGet room1.probabilityPools id with
              | some pool =>
                [.swipingStarted pool.totalSize
                  (pool.served.map (fun e => e.2.card)) (some pool.swiped.length)]
              | none => []
            else []
          let st1 := { st with
            room := some room1
            disconnectTimers := timers }
          .ok (st1, roomInfo, replay1 ++ replay2,
               [.participantStatusChanged id .connected])
  | _, _ => .error "Session expired. Please rejoin the room."

/-! ### Swipe handling, match detection, near-misses -/

/-- Stable insert for the descending sort by `agreement`
(`(a, b) => b.agreement - a.agreement`): an element passes over a later
element only when the later one is strictly greater. -/
def insertByAgreement (x : NearMiss) : List NearMiss → List NearMiss
  | [] => [x]
  | y :: ys => if x.agreement < y.agreement then y :: insertByAgreement x ys
               else x :: y :: ys

/-- Stable descending sort by `agreement` — the unique output a stable
comparison sort (JS `Array.prototype.sort`) produces for this comparator. -/
def sortByAgreement : List NearMiss → List NearMiss
  | [] => []
  | x :: xs => insertByAgreement x (sortByAgreement xs)

/-- The `results` accumulation loop of `computeNearMisses(room)`: one entry
per non-empty, non-unanimous voter set whose card is in the master list. -/
def nearMissCandidates (room : Room) : List NearMiss :=
  let totalParticipants := room.participants.length
  room.swipeVotes.filterMap (fun kv =>
    if kv.2.length < totalParticipants ∧ kv.2.length > 0 then
      match (room.masterCards.getD []).find? (fun c => c.ratingKey == kv.1) with
      | some card =>
        some { card := card
               agreement := jsRound (((kv.2.length : ℚ) / (totalParticipants : ℚ)) * 100) }
      | none => none
    else none)

/-- `computeNearMisses(room)`: sort descending by agreement, top 10. -/
def computeNearMisses (room : Room) : List NearMiss :=
  (sortByAgreement (nearMissCandidates room)).take 10

/-- The served → swiped move at the top of `handleSwipe`. -/
def moveServedToSwiped (pool : ProbabilityPool) (ratingKey : String) :
    ProbabilityPool :=
  match mapGet pool.served ratingKey with
  | some entry =>
    { pool with
      served := mapDelete pool.served ratingKey
      swiped := mapSet pool.swiped ratingKey entry }
  | none => pool

/-- The weight-propagation loop of `handleSwipe`: every pool except the
swiper's own gets `updatePoolWeights`. -/
def propagateWeights (pools : List (String × ProbabilityPool))
    (participantId ratingKey : String) (direction : SwipeDirection)
    (options : DeckOptions) : List (String × ProbabilityPool) :=
  pools.map (fun p =>
    if p.1 = participantId then p
    else (p.1, updatePoolWeights p.2 ratingKey direction options))

/-- `allExhausted` check of `handleSwipe`. -/
def allPoolsExhausted (pools : List (String × ProbabilityPool)) : Bool :=
  pools.all (fun p => p.2.unseen.length = 0 && p.2.served.length = 0)

/-- `handleSwipe(socket, ratingKey, direction)` after socket resolution. -/
def handleSwipe (room : Room) (participantId ratingKey : String)
    (direction : SwipeDirection) : Room × List ServerMsg :=
  if room.masterCards.isNone then (room, []) else
  if room.sessionStatus = .sessionEnded then (room, []) else
  match mapGet room.probabilityPools participantId with
  | none => (room, [])
  | some pool =>
    let pool1 := moveServedToSwiped pool ratingKey
    let pools1 := mapSet room.probabilityPools participantId pool1
    let room1 : Room :=
      if direction = .right then
        let voters := (mapGet room.swipeVotes ratingKey).getD []
        let voters1 := setAdd voters participantId
        let prevRight := (mapGet room.rightSwipeCounts ratingKey).getD 0
        { room with
          swipeVotes := mapSet room.swipeVotes ratingKey voters1
          rightSwipeCounts := mapSet room.rightSwipeCounts ratingKey (prevRight + 1) }
      else
        let prevLeft := (mapGet room.leftSwipeCounts ratingKey).getD 0
        { room with
          leftSwipeCounts := mapSet room.leftSwipeCounts ratingKey (prevLeft + 1) }
    let prevCount := (mapGet room1.swipeCounts ratingKey).getD 0
    let room2 : Room :=
      { room1 with
        swipeCounts := mapSet room1.swipeCounts ratingKey (prevCount + 1)
        probabilityPools :=
          propagateWeights pools1 participantId ratingKey direction room.deckOptions }
    let progressMsg : ServerMsg :=
      .swipeProgress ratingKey
        ((mapGet room2.swipeCounts ratingKey).getD 0)
        room2.participants.length
    let matchMsgs : List ServerMsg :=
      if direction = .right then
        match mapGet room2.swipeVotes ratingKey with
        | some voters =>
          if voters.length = room2.participants.length then
            match (room2.masterCards.getD []).find? (fun c => c.ratingKey == ratingKey) with
            | some matchedCard => [.matchFound matchedCard]
            | none => []
          else []
        | none => []
      else []
    if allPoolsExhausted room2.probabilityPools then
      ({ room2 with sessionStatus := .sessionEnded },
       [progressMsg] ++ matchMsgs ++ [.noMatch (computeNearMisses room2)])
    else (room2, [progressMsg] ++ matchMsgs)

/-- `handleRequestCards(socket, count)` after socket resolution. -/
def handleRequestCards (rands : Nat → ℚ) (room : Room) (participantId : String)
    (count : Int) : Room × List ServerMsg :=
  if room.sessionStatus = .sessionEnded then (room, []) else
  match mapGet room.probabilityPools participantId with
  | none => (room, [])
  | some pool =>
    let clampedCount := min (max count 1) SERVER_MAX_CLAMP
    let sampled := sampleFromPool rands pool clampedCount.toNat
    let room1 :=
      { room with
        probabilityPools := mapSet room.probabilityPools participantId sampled.2 }
    (room1, if sampled.1.length > 0 then [.cardsServed sampled.1] else [])

/-- `handleSelectMatch(socket, ratingKey)` after socket resolution. -/
def handleSelectMatch (room : Room) (participantId ratingKey : String) :
    Room × List ServerMsg :=
  if room.sessionStatus = .sessionEnded then (room, []) else
  match (room.masterCards.getD []).find? (fun c => c.ratingKey == ratingKey) with
  | none => (room, [])
  | some card =>
    let selectedBy :=
      match mapGet room.participants participantId with
      | some p => p.nickname
      | none => "Unknown"
    ({ room with sessionStatus := .sessionEnded },
     [.sessionEnded card selectedBy])

/-- `handleRegretMatch(socket, ratingKey)` after socket resolution. -/
def handleRegretMatch (room : Room) (ratingKey : String) :
    Room × List ServerMsg :=
  if room.sessionStatus = .sessionEnded then (room, [])
  else (room, [.matchDismissed ratingKey])

/-! ## Lemmas about the JS map/set model -/

section MapLemmas

variable {α : Type}

@[simp] theorem mapGet_nil (k : String) : mapGet ([] : List (String × α)) k = none := rfl

theorem mapGet_cons (p : String × α) (m : List (String × α)) (k : String) :
    mapGet (p :: m) k = if p.1 = k then some p.2 else mapGet m k := rfl

@[simp] theorem mapKeys_nil : mapKeys ([] : List (String × α)) = [] := rfl

@[simp] theorem mapKeys_cons (p : String × α) (m : List (String × α)) :
    mapKeys (p :: m) = p.1 :: mapKeys m := rfl

theorem mapGet_isSome_iff (m : List (String × α)) (k : String) :
    (mapGet m k).isSome ↔ k ∈ mapKeys m := by
  induction m with
  | nil => simp
  | cons p m ih =>
    by_cases h : p.1 = k <;> simp [mapGet_cons, h, ih]
    exact fun hk => (h hk.symm).elim

theorem mapGet_eq_none_iff (m : List (String × α)) (k : String) :
    mapGet m k = none ↔ k ∉ mapKeys m := by
  rw [← mapGet_isSome_iff, Option.isSome_iff_ne_none]
  tauto

theorem mem_mapKeys_of_mapGet {m : List (String × α)} {k : String} {v : α}
    (h : mapGet m k = some v) : k ∈ mapKeys m := by
  rw [← mapGet_isSome_iff, h]; rfl

@[simp] theorem mapGet_mapSet_self (m : List (String × α)) (k : String) (v : α) :
    mapGet (mapSet m k v) k = some v := by
  induction m with
  | nil => simp [mapSet, mapGet]
  | cons p m ih =>
    by_cases h : p.1 = k <;> simp [mapSet, h, mapGet_cons, ih]

theorem mapGet_mapSet_ne (m : List (String × α)) {k k' : String} (v : α)
    (h : k' ≠ k) : mapGet (mapSet m k v) k' = mapGet m k' := by
  have hne : ¬ (k = k') := fun hc => h hc.symm
  induction m with
  | nil => simp [mapSet, mapGet_cons, hne]
  | cons p m ih =>
    by_cases hp : p.1 = k
    · rw [show mapSet (p :: m) k v = (k, v) :: m from by simp [mapSet, hp],
        mapGet_cons, mapGet_cons, if_neg hne, if_neg (fun hc : p.1 = k' => hne (hp ▸ hc))]
    · rw [show mapSet (p :: m) k v = p :: mapSet m k v from by simp [mapSet, hp],
        mapGet_cons, mapGet_cons, ih]

theorem mem_mapKeys_mapSet (m : List (String × α)) (k k' : String) (v : α) :
    k' ∈ mapKeys (mapSet m k v) ↔ k' = k ∨ k' ∈ mapKeys m := by
  induction m with
  | nil => simp [mapSet]
  | cons p m ih =>
    by_cases h : p.1 = k
    · simp [mapSet, h, ih]
    · simp [mapSet, h, ih]
      tauto

theorem mapKeys_mapSet_of_mem (m : List (String × α)) {k : String} (v : α)
    (hmem : k ∈ mapKeys m) : mapKeys (mapSet m k v) = mapKeys m := by
  induction m with
  | nil => simp at hmem
  | cons p m ih =>
    by_cases hp : p.1 = k
    · rw [show mapSet (p :: m) k v = (k, v) :: m from by simp [mapSet, hp]]
      simp [hp]
    · rw [show mapSet (p :: m) k v = p :: mapSet m k v from by simp [mapSet, hp]]
      simp only [mapKeys_cons, List.mem_cons] at hmem
      rcases hmem with h1 | h1
      · exact absurd h1.symm hp
      · simp [ih h1]

theorem nodup_mapKeys_mapSet (m : List (String × α)) (k : String) (v : α)
    (h : (mapKeys m).Nodup) : (mapKeys (mapSet m k v)).Nodup := by
  induction m with
  | nil => simp [mapSet]
  | cons p m ih =>
    simp only [mapKeys_cons, List.nodup_cons] at h
    by_cases hp : p.1 = k
    · simp only [mapSet, if_pos hp, mapKeys_cons, List.nodup_cons]
      exact ⟨hp ▸ h.1, h.2⟩
    · simp only [mapSet, if_neg hp, mapKeys_cons, List.nodup_cons]
      refine ⟨fun hc => ?_, ih h.2⟩
      rcases (mem_mapKeys_mapSet m k p.1 v).mp hc with h1 | h1
      · exact hp h1
      · exact h.1 h1

@[simp] theorem mapGet_mapDelete_self (m : List (String × α)) (k : String) :
    mapGet (mapDelete m k) k = none := by
  induction m with
  | nil => simp [mapDelete]
  | cons p m ih =>
    by_cases h : p.1 = k <;>
      · simp [mapDelete, h, mapGet_cons] at ih ⊢
        simpa [mapDelete, h] using ih

theorem mapGet_mapDelete_ne (m : List (String × α)) {k k' : String}
    (h : k' ≠ k) : mapGet (mapDelete m k) k' = mapGet m k' := by
  induction m with
  | nil => simp [mapDelete]
  | cons p m ih =>
    by_cases hp : p.1 = k
    · rw [show mapDelete (p :: m) k = mapDelete m k from by simp [mapDelete, hp], ih,
        mapGet_cons, if_neg (fun hc : p.1 = k' => h (hc.symm.trans hp))]
    · rw [show mapDelete (p :: m) k = p :: mapDelete m k from by simp [mapDelete, hp],
        mapGet_cons, mapGet_cons, ih]

theorem mem_mapKeys_mapDelete (m : List (String × α)) (k k' : String) :
    k' ∈ mapKeys (mapDelete m k) ↔ k' ≠ k ∧ k' ∈ mapKeys m := by
  induction m with
  | nil => simp [mapDelete]
  | cons p m ih =>
    by_cases hp : p.1 = k
    · rw [show mapDelete (p :: m) k = mapDelete m k from by simp [mapDelete, hp], ih]
      constructor
      · rintro ⟨h1, h2⟩; exact ⟨h1, by simp [h2]⟩
      · rintro ⟨h1, h2⟩
        simp only [mapKeys_cons, List.mem_cons] at h2
        rcases h2 with h2 | h2
        · exact absurd (h2.trans hp) h1
        · exact ⟨h1, h2⟩
    · rw [show mapDelete (p :: m) k = p :: mapDelete m k from by simp [mapDelete, hp]]
      simp only [mapKeys_cons, List.mem_cons, ih]
      constructor
      · rintro (h1 | ⟨h1, h2⟩)
        · exact ⟨fun hc => hp (h1.symm.trans hc), Or.inl h1⟩
        · exact ⟨h1, Or.inr h2⟩
      · rintro ⟨h1, h2 | h2⟩
        · exact Or.inl h2
        · exact Or.inr ⟨h1, h2⟩

theorem nodup_mapKeys_mapDelete (m : List (String × α)) (k : String)
    (h : (mapKeys m).Nodup) : (mapKeys (mapDelete m k)).Nodup := by
  induction m with
  | nil => simp [mapDelete]
  | cons p m ih =>
    simp only [mapKeys_cons, List.nodup_cons] at h
    by_cases hp : p.1 = k
    · rw [show mapDelete (p :: m) k = mapDelete m k by simp [mapDelete, hp]]
      exact ih h.2
    · rw [show mapDelete (p :: m) k = p :: mapDelete m k by simp [mapDelete, hp]]
      simp only [mapKeys_cons, List.nodup_cons]
      exact ⟨fun hc => h.1 ((mem_mapKeys_mapDelete m k p.1).mp hc).2, ih h.2⟩

theorem length_mapKeys (m : List (String × α)) : (mapKeys m).length = m.length := by
  simp [mapKeys]

end MapLemmas

theorem mapSet_same {α : Type} (m : List (String × α)) (k : String) (v : α)
    (hget : mapGet m k = some v) : mapSet m k v = m := by
  induction m with
  | nil => simp [mapGet] at hget
  | cons p m ih =>
    obtain ⟨a, b⟩ := p
    by_cases h : a = k
    · subst h
      rw [mapGet_cons, if_pos rfl] at hget
      simp only [Option.some_inj] at hget
      simp [mapSet, hget]
    · rw [mapGet_cons, if_neg h] at hget
      simp [mapSet, h, ih hget]

theorem mapGet_propagateWeights_self (pools : List (String × ProbabilityPool))
    (pid k : String) (dir : SwipeDirection) (opts : DeckOptions) :
    mapGet (propagateWeights pools pid k dir opts) pid = mapGet pools pid := by
  induction pools with
  | nil => rfl
  | cons p pools ih =>
    simp only [propagateWeights, List.map_cons] at ih ⊢
    by_cases h : p.1 = pid
    · rw [if_pos h, mapGet_cons, mapGet_cons, if_pos h, if_pos h]
    · rw [if_neg h, mapGet_cons, mapGet_cons, if_neg h, if_neg h, ih]

theorem mapGet_propagateWeights_other (pools : List (String × ProbabilityPool))
    (pid k : String) (dir : SwipeDirection) (opts : DeckOptions) (pid2 : String)
    (hne : pid2 ≠ pid) :
    mapGet (propagateWeights pools pid k dir opts) pid2 =
      (mapGet pools pid2).map (fun q => updatePoolWeights q k dir opts) := by
  induction pools with
  | nil => rfl
  | cons p pools ih =>
    simp only [propagateWeights, List.map_cons] at ih ⊢
    by_cases h : p.1 = pid
    · rw [if_pos h, mapGet_cons, mapGet_cons,
        if_neg (fun hc : p.1 = pid2 => hne (hc.symm.trans h)),
        if_neg (fun hc : p.1 = pid2 => hne (hc.symm.trans h)), ih]
    · by_cases h2 : p.1 = pid2
      · rw [if_neg h, mapGet_cons, mapGet_cons, if_pos h2, if_pos h2]
        rfl
      · rw [if_neg h, mapGet_cons, mapGet_cons, if_neg h2, if_neg h2, ih]

/-- Under the guards of `handleSwipe`, the resulting pools are exactly: the
swiper's pool after the served → swiped move, every other pool after
`updatePoolWeights`. -/
theorem handleSwipe_probabilityPools (room : Room) (cards : List DeckCard)
    (pid k : String) (dir : SwipeDirection) (pool : ProbabilityPool)
    (hmc : room.masterCards = some cards) (hss : room.sessionStatus = .swiping)
    (hp : mapGet room.probabilityPools pid = some pool) :
    (handleSwipe room pid k dir).1.probabilityPools =
      propagateWeights (mapSet room.probabilityPools pid (moveServedToSwiped pool k))
        pid k dir room.deckOptions := by
  simp only [handleSwipe, hmc, hss, hp, Option.isNone_some, Bool.false_eq_true,
    if_false, reduceCtorEq]
  split <;> split <;> rfl

/-! ## Concrete fixtures used by the witnesses -/

def sampleCard (key : String) : DeckCard :=
  { ratingKey := key, title := key, year := 2000, genres := ["Action"], rating := none,
    audienceRating := none, duration := 100, summary := "", contentRating := "PG",
    addedAt := 0 }

def sampleEntry (key : String) (w : ℚ) : PoolEntry :=
  { card := sampleCard key, baseWeight := w, dynamicWeight := w, isWildCard := false }

def sampleParticipant (id : String) (host : Bool) : Participant :=
  { id := id, nickname := id, socket := some 1, color := "#E57373", initial := "A",
    isHost := host, sessionToken := "tok" ++ id, connectionStatus := .connected,
    disconnectedAt := none }

def samplePool : ProbabilityPool :=
  { unseen := [("7", sampleEntry "7" 1)]
    served := [("9", sampleEntry "9" 1)]
    swiped := []
    totalSize := 2 }

def sampleRoom : Room :=
  { code := "WXYZ", hostId := "A"
    participants := [("A", sampleParticipant "A" true), ("B", sampleParticipant "B" false)]
    createdAt := 0, phase := .swiping, filterStates := [], readyParticipants := ["A", "B"]
    deckOptions := DEFAULT_DECK_OPTIONS
    masterCards := some [sampleCard "7", sampleCard "9"]
    probabilityPools := [("A", samplePool), ("B", samplePool)]
    rightSwipeCounts := [], leftSwipeCounts := [], swipeVotes := [], swipeCounts := []
    sessionStatus := .swiping }

def endedRoom : Room := { sampleRoom with sessionStatus := .sessionEnded }

/-! ## C9: select / regret after session end -/

/-- **C9.** Once a room's `sessionStatus` is `session_ended`, any subsequent
select-match or regret-match event is a no-op: it leaves the room (including
`sessionStatus`) unchanged and broadcasts nothing. On a live session the
first select locks in the choice: it flips `sessionStatus` to
`session_ended` and broadcasts `session_ended` naming the selecting
participant. -/
theorem handleSelectMatch_handleRegretMatch_noop_after_end
    (room : Room) (pid ratingKey : String)
    (hEnded : room.sessionStatus = .sessionEnded) :
    handleSelectMatch room pid ratingKey = (room, []) ∧
    handleRegretMatch room ratingKey = (room, []) ∧
    (∀ (room2 : Room) (card : DeckCard) (p : Participant),
      room2.sessionStatus = .swiping →
      (room2.masterCards.getD []).find? (fun c => c.ratingKey == ratingKey) = some card →
      mapGet room2.participants pid = some p →
      handleSelectMatch room2 pid ratingKey =
        ({ room2 with sessionStatus := .sessionEnded },
         [.sessionEnded card p.nickname])) := by
  refine ⟨?_, ?_, ?_⟩
  · simp [handleSelectMatch, hEnded]
  · simp [handleRegretMatch, hEnded]
  · intro room2 card p h1 h2 h3
    simp [handleSelectMatch, h1, h2, h3]

/-- Witness for C9 at a concrete ended room and a concrete live room. -/
theorem handleSelectMatch_handleRegretMatch_noop_after_end_witness :
    handleSelectMatch endedRoom "A" "7" = (endedRoom, []) ∧
    handleRegretMatch endedRoom "7" = (endedRoom, []) ∧
    handleSelectMatch sampleRoom "A" "7" =
      ({ sampleRoom with sessionStatus := .sessionEnded },
       [.sessionEnded (sampleCard "7") "A"]) :=
  ⟨(handleSelectMatch_handleRegretMatch_noop_after_end endedRoom "A" "7" rfl).1,
   (handleSelectMatch_handleRegretMatch_noop_after_end endedRoom "A" "7" rfl).2.1,
   (handleSelectMatch_handleRegretMatch_noop_after_end endedRoom "A" "7" rfl).2.2
     sampleRoom (sampleCard "7") (sampleParticipant "A" true) rfl rfl rfl⟩

/-! ## C5: weight propagation on swipes -/

/-- A pool entry with `dynamicWeight` raised by `d`. -/
def boostEntry (e : PoolEntry) (d : ℚ) : PoolEntry :=
  { e with dynamicWeight := e.dynamicWeight + d }

/-- A pool entry with `dynamicWeight` lowered by `d`, floored at `0.01`. -/
def demoteEntry (e : PoolEntry) (d : ℚ) : PoolEntry :=
  { e with dynamicWeight := max (e.dynamicWeight - d) (1/100) }

/-- A pool with its `unseen` partition replaced. -/
def setUnseen (p : ProbabilityPool) (u : List (String × PoolEntry)) : ProbabilityPool :=
  { p with unseen := u }

/-- **C5.** When a swipe is recorded, `updatePoolWeights` is applied to every
other participant's pool and never the swiper's own (whose unseen entries
keep their weights); it mutates an entry only while the item is still
`unseen`: a right swipe adds the intensity multiplier to `dynamicWeight`
when boost-right is enabled, a left swipe subtracts it when demote-left is
enabled flooring at `0.01`, and nothing changes when the option is disabled;
at medium intensity with boost-right enabled the unseen entry's
`dynamicWeight` grows by exactly `3.0`. -/
theorem handleSwipe_updatePoolWeights_peers_only
    (room : Room) (cards : List DeckCard) (pid k : String)
    (dir : SwipeDirection) (pool : ProbabilityPool)
    (hmc : room.masterCards = some cards) (hss : room.sessionStatus = .swiping)
    (hp : mapGet room.probabilityPools pid = some pool) :
    (∀ pid2 pool2, pid2 ≠ pid → mapGet room.probabilityPools pid2 = some pool2 →
      mapGet (handleSwipe room pid k dir).1.probabilityPools pid2 =
        some (updatePoolWeights pool2 k dir room.deckOptions)) ∧
    mapGet (handleSwipe room pid k dir).1.probabilityPools pid =
      some (moveServedToSwiped pool k) ∧
    (moveServedToSwiped pool k).unseen = pool.unseen ∧
    (∀ (q : ProbabilityPool) (opts : DeckOptions),
      (mapGet q.unseen k = none → updatePoolWeights q k dir opts = q) ∧
      (∀ e, mapGet q.unseen k = some e →
        (dir = .right → opts.boostRightSwipes.enabled = true →
          updatePoolWeights q k dir opts =
            setUnseen q (mapSet q.unseen k
              (boostEntry e (intensityMap opts.boostRightSwipes.intensity)))) ∧
        (dir = .right → opts.boostRightSwipes.enabled = false →
          updatePoolWeights q k dir opts = q) ∧
        (dir = .left → opts.demoteLeftSwipes.enabled = true →
          updatePoolWeights q k dir opts =
            setUnseen q (mapSet q.unseen k
              (demoteEntry e (intensityMap opts.demoteLeftSwipes.intensity)))) ∧
        (dir = .left → opts.demoteLeftSwipes.enabled = false →
          updatePoolWeights q k dir opts = q) ∧
        (dir = .right → opts.boostRightSwipes = ⟨true, .medium⟩ →
          mapGet (updatePoolWeights q k dir opts).unseen k =
            some (boostEntry e 3)))) := by
  have hpools := handleSwipe_probabilityPools room cards pid k dir pool hmc hss hp
  refine ⟨?_, ?_, ?_, ?_⟩
  · intro pid2 pool2 hne hget2
    rw [hpools, mapGet_propagateWeights_other _ _ _ _ _ _ hne,
      mapGet_mapSet_ne _ _ hne, hget2]
    rfl
  · rw [hpools, mapGet_propagateWeights_self, mapGet_mapSet_self]
  · unfold moveServedToSwiped
    cases mapGet pool.served k <;> rfl
  · intro q opts
    constructor
    · intro hq
      unfold updatePoolWeights
      rw [hq]
    · intro e hq
      refine ⟨?_, ?_, ?_, ?_, ?_⟩
      · intro hdir hen
        subst hdir
        unfold updatePoolWeights
        rw [hq]
        simp [hen, boostEntry, setUnseen]
      · intro hdir hen
        subst hdir
        unfold updatePoolWeights
        rw [hq]
        simp only [hen, reduceCtorEq, and_true, and_false, if_true, if_false]
        simp [mapSet_same q.unseen k e hq]
      · intro hdir hen
        subst hdir
        unfold updatePoolWeights
        rw [hq]
        simp [hen, demoteEntry, setUnseen]
      · intro hdir hen
        subst hdir
        unfold updatePoolWeights
        rw [hq]
        simp only [hen, reduceCtorEq, and_true, and_false, if_true, if_false]
        simp [mapSet_same q.unseen k e hq]
      · intro hdir hopt
        subst hdir
        unfold updatePoolWeights
        rw [hq]
        simp only [hopt]
        simp [intensityMap, mapGet_mapSet_self, boostEntry]

/-- Witness for C5: in `sampleRoom`, A swipes right on the card with key
`"7"`, which is still unseen in B's pool; B's entry gains exactly `3.0`. -/
theorem handleSwipe_updatePoolWeights_peers_only_witness :
    mapGet (handleSwipe sampleRoom "A" "7" .right).1.probabilityPools "B" =
      some (updatePoolWeights samplePool "7" .right DEFAULT_DECK_OPTIONS) ∧
    mapGet (updatePoolWeights samplePool "7" .right DEFAULT_DECK_OPTIONS).unseen "7" =
      some (boostEntry (sampleEntry "7" 1) 3) := by
  have h := handleSwipe_updatePoolWeights_peers_only sampleRoom
    [sampleCard "7", sampleCard "9"] "A" "7" .right samplePool rfl rfl rfl
  refine ⟨h.1 "B" samplePool (by decide) rfl, ?_⟩
  have h5 := (h.2.2.2 samplePool DEFAULT_DECK_OPTIONS).2 (sampleEntry "7" 1) rfl
  exact h5.2.2.2.2 rfl rfl

/-! ## C2: right swipes, voter sets and match detection -/

theorem mem_setAdd_self (s : List String) (x : String) : x ∈ setAdd s x := by
  unfold setAdd
  split
  · next h => exact List.mem_of_elem_eq_true h
  · simp

/-- **C2.** In the swiping phase, a right swipe on item `k` adds the swiper
to `k`'s voter set; exactly when the updated voter set's size equals the
current participant count, a `match_found` event carrying `k`'s master card
is broadcast; a match by itself does not change `sessionStatus` (only pool
exhaustion does). -/
theorem handleSwipe_right_match (room : Room) (cards : List DeckCard)
    (pid k : String) (pool : ProbabilityPool) (card : DeckCard)
    (hmc : room.masterCards = some cards) (hss : room.sessionStatus = .swiping)
    (hp : mapGet room.probabilityPools pid = some pool)
    (hcard : cards.find? (fun c => c.ratingKey == k) = some card) :
    mapGet (handleSwipe room pid k .right).1.swipeVotes k =
      some (setAdd ((mapGet room.swipeVotes k).getD []) pid) ∧
    pid ∈ setAdd ((mapGet room.swipeVotes k).getD []) pid ∧
    ((setAdd ((mapGet room.swipeVotes k).getD []) pid).length =
        room.participants.length →
      ServerMsg.matchFound card ∈ (handleSwipe room pid k .right).2) ∧
    ((setAdd ((mapGet room.swipeVotes k).getD []) pid).length ≠
        room.participants.length →
      ∀ c, ServerMsg.matchFound c ∉ (handleSwipe room pid k .right).2) ∧
    (allPoolsExhausted (handleSwipe room pid k .right).1.probabilityPools = false →
      (handleSwipe room pid k .right).1.sessionStatus = room.sessionStatus) := by
  simp only [handleSwipe, hmc, hss, hp, Option.isNone_some, Bool.false_eq_true,
    if_false, reduceCtorEq, reduceIte]
  refine ⟨?_, mem_setAdd_self _ _, ?_, ?_, ?_⟩
  · split <;> simp [mapGet_mapSet_self]
  · intro hlen
    split <;>
      · simp only [mapGet_mapSet_self, Option.getD_some, hlen, if_pos rfl, hcard]
        simp
  · intro hlen c
    split <;>
      · simp only [mapGet_mapSet_self, Option.getD_some, if_neg hlen]
        simp
  · intro hex
    split
    · next h => simp [h] at hex
    · rfl

/-- The room after A right-swipes the (served) card `"9"` in `sampleRoom`. -/
def roomAfterA : Room := (handleSwipe sampleRoom "A" "9" .right).1

/-- Witness for C2: B's right swipe on `"9"` completes the 2-of-2 voter set
and broadcasts `match_found` with the card. -/
theorem handleSwipe_right_match_witness :
    ServerMsg.matchFound (sampleCard "9") ∈ (handleSwipe roomAfterA "B" "9" .right).2 :=
  (handleSwipe_right_match roomAfterA [sampleCard "7", sampleCard "9"] "B" "9"
    samplePool (sampleCard "9") rfl rfl rfl rfl).2.2.1 (by decide)

/-! ## C3: pool exhaustion and the near-miss broadcast -/

theorem insertByAgreement_perm (x : NearMiss) (l : List NearMiss) :
    (insertByAgreement x l).Perm (x :: l) := by
  induction l with
  | nil => exact List.Perm.refl _
  | cons y ys ih =>
    unfold insertByAgreement
    split
    · exact (ih.cons y).trans (List.Perm.swap x y ys)
    · exact List.Perm.refl _

theorem sortByAgreement_perm (l : List NearMiss) : (sortByAgreement l).Perm l := by
  induction l with
  | nil => exact List.Perm.refl _
  | cons x xs ih =>
    exact (insertByAgreement_perm x (sortByAgreement xs)).trans (ih.cons x)

theorem insertByAgreement_pairwise (x : NearMiss) (l : List NearMiss)
    (hl : l.Pairwise (fun a b => b.agreement ≤ a.agreement)) :
    (insertByAgreement x l).Pairwise (fun a b => b.agreement ≤ a.agreement) := by
  induction l with
  | nil => simp [insertByAgreement]
  | cons y ys ih =>
    rw [List.pairwise_cons] at hl
    obtain ⟨hy, hys⟩ := hl
    unfold insertByAgreement
    split
    · next hlt =>
      rw [List.pairwise_cons]
      refine ⟨?_, ih hys⟩
      intro z hz
      rcases List.mem_cons.mp ((insertByAgreement_perm x ys).mem_iff.mp hz) with rfl | hz2
      · exact le_of_lt hlt
      · exact hy z hz2
    · next hge =>
      rw [List.pairwise_cons]
      refine ⟨?_, List.pairwise_cons.mpr ⟨hy, hys⟩⟩
      intro z hz
      rcases List.mem_cons.mp hz with rfl | hz2
      · exact le_of_not_lt hge
      · exact le_trans (hy z hz2) (le_of_not_lt hge)

theorem sortByAgreement_pairwise (l : List NearMiss) :
    (sortByAgreement l).Pairwise (fun a b => b.agreement ≤ a.agreement) := by
  induction l with
  | nil => simp [sortByAgreement]
  | cons x xs ih => exact insertByAgreement_pairwise x (sortByAgreement xs) ih

/-- Stability of the near-miss sort: elements of equal agreement keep their
relative (encounter) order. -/
theorem filter_insertByAgreement (x : NearMiss) (l : List NearMiss) (a : Int) :
    (insertByAgreement x l).filter (fun z => z.agreement == a) =
      if x.agreement = a then x :: l.filter (fun z => z.agreement == a)
      else l.filter (fun z => z.agreement == a) := by
  induction l with
  | nil =>
    by_cases hx : x.agreement = a <;>
      simp [insertByAgreement, List.filter_cons, hx]
  | cons y ys ih =>
    unfold insertByAgreement
    split
    · next hlt =>
      rw [List.filter_cons, List.filter_cons, ih]
      by_cases hy : y.agreement = a
      · by_cases hx : x.agreement = a
        · exact absurd hlt (by rw [hx, hy]; exact lt_irrefl a)
        · simp [hx, hy]
      · by_cases hx : x.agreement = a <;> simp [hx, hy]
    · next hge =>
      rw [List.filter_cons]
      by_cases hx : x.agreement = a <;> simp [hx, List.filter_cons]

theorem filter_sortByAgreement (l : List NearMiss) (a : Int) :
    (sortByAgreement l).filter (fun z => z.agreement == a) =
      l.filter (fun z => z.agreement == a) := by
  induction l with
  | nil => rfl
  | cons x xs ih =>
    rw [show sortByAgreement (x :: xs) = insertByAgreement x (sortByAgreement xs)
        from rfl,
      filter_insertByAgreement, List.filter_cons]
    by_cases hx : x.agreement = a <;> simp [hx, ih]

theorem mapGet_of_mem_nodup {α : Type} {m : List (String × α)} {p : String × α}
    (hnd : (mapKeys m).Nodup) (hp : p ∈ m) : mapGet m p.1 = some p.2 := by
  induction m with
  | nil => simp at hp
  | cons q m ih =>
    simp only [mapKeys_cons, List.nodup_cons] at hnd
    rcases List.mem_cons.mp hp with rfl | hp2
    · rw [mapGet_cons, if_pos rfl]
    · rw [mapGet_cons]
      by_cases hq : q.1 = p.1
      · refine absurd ?_ hnd.1
        rw [hq]
        exact List.mem_map_of_mem Prod.fst hp2
      · rw [if_neg hq]
        exact ih hnd.2 hp2

/-- Every entry of `nearMissCandidates` comes from a non-empty, non-unanimous
voter set and carries the rounded agreement percentage. -/
theorem mem_nearMissCandidates (room : Room) (x : NearMiss)
    (hnd : (mapKeys room.swipeVotes).Nodup)
    (hx : x ∈ nearMissCandidates room) :
    ∃ voters, mapGet room.swipeVotes x.card.ratingKey = some voters ∧
      0 < voters.length ∧ voters.length < room.participants.length ∧
      x.agreement =
        jsRound (((voters.length : ℚ) / (room.participants.length : ℚ)) * 100) := by
  unfold nearMissCandidates at hx
  rw [List.mem_filterMap] at hx
  obtain ⟨kv, hkv, hf⟩ := hx
  by_cases hcond : kv.2.length < room.participants.length ∧ kv.2.length > 0
  · rw [if_pos hcond] at hf
    cases hfind : (room.masterCards.getD []).find? (fun c => c.ratingKey == kv.1) with
    | none => rw [hfind] at hf; exact absurd hf (by simp)
    | some card =>
      rw [hfind] at hf
      have hxval : x = ⟨card, jsRound (((kv.2.length : ℚ) /
          ((room.participants.length : ℚ))) * 100)⟩ := by
        injection hf with h
        exact h.symm
      have hkey : card.ratingKey = kv.1 := by
        have := List.find?_some hfind
        simpa using this
      refine ⟨kv.2, ?_, hcond.2, hcond.1, by rw [hxval]⟩
      rw [hxval]
      simp only
      rw [hkey]
      exact mapGet_of_mem_nodup hnd hkv
  · rw [if_neg hcond] at hf
    exact absurd hf (by simp)

/-- **C3.** After a swipe, the session ends automatically exactly when every
pool has `unseen` and `served` empty, broadcasting the near-miss list of the
post-swipe room: every broadcast entry has a non-empty, non-unanimous voter
set and agreement `round(voterCount / participantCount × 100)`; the list is
ranked descending, truncated to 10, complete when at most 10 items qualify,
and ties keep encounter order. -/
theorem handleSwipe_exhaustion_near_misses (room : Room) (cards : List DeckCard)
    (pid k : String) (dir : SwipeDirection) (pool : ProbabilityPool)
    (hmc : room.masterCards = some cards) (hss : room.sessionStatus = .swiping)
    (hp : mapGet room.probabilityPools pid = some pool)
    (hnd : (mapKeys (handleSwipe room pid k dir).1.swipeVotes).Nodup) :
    (allPoolsExhausted (handleSwipe room pid k dir).1.probabilityPools = true →
      (handleSwipe room pid k dir).1.sessionStatus = .sessionEnded ∧
      ServerMsg.noMatch (computeNearMisses (handleSwipe room pid k dir).1) ∈
        (handleSwipe room pid k dir).2) ∧
    (allPoolsExhausted (handleSwipe room pid k dir).1.probabilityPools = false →
      (handleSwipe room pid k dir).1.sessionStatus = .swiping ∧
      ∀ l, ServerMsg.noMatch l ∉ (handleSwipe room pid k dir).2) ∧
    (∀ x ∈ computeNearMisses (handleSwipe room pid k dir).1,
      ∃ voters,
        mapGet (handleSwipe room pid k dir).1.swipeVotes x.card.ratingKey =
          some voters ∧
        0 < voters.length ∧
        voters.length < (handleSwipe room pid k dir).1.participants.length ∧
        x.agreement = jsRound (((voters.length : ℚ) /
          (((handleSwipe room pid k dir).1.participants.length : ℚ))) * 100)) ∧
    (computeNearMisses (handleSwipe room pid k dir).1).Pairwise
      (fun a b => b.agreement ≤ a.agreement) ∧
    (computeNearMisses (handleSwipe room pid k dir).1).length =
      min 10 (nearMissCandidates (handleSwipe room pid k dir).1).length ∧
    ((nearMissCandidates (handleSwipe room pid k dir).1).length ≤ 10 →
      ∀ x ∈ nearMissCandidates (handleSwipe room pid k dir).1,
        x ∈ computeNearMisses (handleSwipe room pid k dir).1) ∧
    (∀ a : Int,
      (sortByAgreement (nearMissCandidates (handleSwipe room pid k dir).1)).filter
          (fun z => z.agreement == a) =
        (nearMissCandidates (handleSwipe room pid k dir).1).filter
          (fun z => z.agreement == a)) := by
  have hpools := handleSwipe_probabilityPools room cards pid k dir pool hmc hss hp
  refine ⟨?_, ?_, ?_, ?_, ?_, ?_, ?_⟩
  · intro hex
    rw [hpools] at hex
    constructor
    · simp only [handleSwipe, hmc, hss, hp, Option.isNone_some, Bool.false_eq_true,
        if_false, reduceCtorEq, reduceIte]
      rw [if_pos hex]
    · simp only [handleSwipe, hmc, hss, hp, Option.isNone_some, Bool.false_eq_true,
        if_false, reduceCtorEq, reduceIte]
      rw [if_pos hex]
      exact List.mem_append.mpr (Or.inr (List.mem_singleton.mpr rfl))
  · intro hex
    rw [hpools] at hex
    have hnotex : ¬ (allPoolsExhausted
        (propagateWeights (mapSet room.probabilityPools pid (moveServedToSwiped pool k))
          pid k dir room.deckOptions) = true) := by
      rw [hex]
      simp
    constructor
    · simp only [handleSwipe, hmc, hss, hp, Option.isNone_some, Bool.false_eq_true,
        if_false, reduceCtorEq, reduceIte]
      rw [if_neg hnotex]
      split <;> rfl
    · intro l
      simp only [handleSwipe, hmc, hss, hp, Option.isNone_some, Bool.false_eq_true,
        if_false, reduceCtorEq, reduceIte]
      rw [if_neg hnotex]
      intro h
      rcases List.mem_append.mp h with h1 | h1
      · simp at h1
      · repeat' split at h1
        all_goals simp at h1
  · intro x hx
    have hx2 : x ∈ nearMissCandidates (handleSwipe room pid k dir).1 :=
      (sortByAgreement_perm _).mem_iff.mp (List.mem_of_mem_take hx)
    exact mem_nearMissCandidates _ x hnd hx2
  · exact (sortByAgreement_pairwise _).sublist (List.take_sublist 10 _)
  · unfold computeNearMisses
    rw [List.length_take, (sortByAgreement_perm _).length_eq]
  · intro hle x hx
    unfold computeNearMisses
    rw [List.take_of_length_le (by rw [(sortByAgreement_perm _).length_eq]; exact hle)]
    exact (sortByAgreement_perm _).mem_iff.mpr hx
  · intro a
    exact filter_sortByAgreement _ a

/-- Pool with both cards already swiped. -/
def donePool : ProbabilityPool :=
  { unseen := []
    served := []
    swiped := [("7", sampleEntry "7" 1), ("9", sampleEntry "9" 1)]
    totalSize := 2 }

/-- Pool whose last card `"7"` is still awaiting a verdict. -/
def lastCardPool : ProbabilityPool :=
  { unseen := []
    served := [("7", sampleEntry "7" 1)]
    swiped := [("9", sampleEntry "9" 1)]
    totalSize := 2 }

/-- Scenario D: three participants, item `"9"` has right swipes from A and B,
item `"7"` only from A; C's final left swipe exhausts every pool. -/
def scenDRoom : Room :=
  { code := "WXYZ", hostId := "A"
    participants := [("A", sampleParticipant "A" true),
      ("B", sampleParticipant "B" false), ("C", sampleParticipant "C" false)]
    createdAt := 0, phase := .swiping, filterStates := [], readyParticipants := []
    deckOptions := DEFAULT_DECK_OPTIONS
    masterCards := some [sampleCard "7", sampleCard "9"]
    probabilityPools := [("A", donePool), ("B", donePool), ("C", lastCardPool)]
    rightSwipeCounts := [("9", 2), ("7", 1)]
    leftSwipeCounts := [("9", 1), ("7", 1)]
    swipeVotes := [("9", ["A", "B"]), ("7", ["A"])]
    swipeCounts := [("9", 3), ("7", 2)]
    sessionStatus := .swiping }

/-- Witness for C3: C's last swipe ends the session and broadcasts the
near-misses, `"9"` at 67% ranked above `"7"` at 33%. -/
theorem handleSwipe_exhaustion_near_misses_witness :
    (handleSwipe scenDRoom "C" "7" .left).1.sessionStatus = .sessionEnded ∧
    ServerMsg.noMatch (computeNearMisses (handleSwipe scenDRoom "C" "7" .left).1) ∈
      (handleSwipe scenDRoom "C" "7" .left).2 ∧
    computeNearMisses (handleSwipe scenDRoom "C" "7" .left).1 =
      [⟨sampleCard "9", 67⟩, ⟨sampleCard "7", 33⟩] := by
  have h := handleSwipe_exhaustion_near_misses scenDRoom
    [sampleCard "7", sampleCard "9"] "C" "7" .left lastCardPool rfl rfl
    (by decide) (by decide)
  have hx := h.1 (by decide)
  refine ⟨hx.1, hx.2, ?_⟩
  have hcand : nearMissCandidates (handleSwipe scenDRoom "C" "7" .left).1 =
      [⟨sampleCard "9", jsRound (((2 : Nat) : ℚ) / ((3 : Nat) : ℚ) * 100)⟩,
       ⟨sampleCard "7", jsRound (((1 : Nat) : ℚ) / ((3 : Nat) : ℚ) * 100)⟩] := rfl
  have e67 : jsRound (((2 : Nat) : ℚ) / ((3 : Nat) : ℚ) * 100) = 67 := by
    rw [jsRound_eq_floor, Int.floor_eq_iff]
    constructor <;> norm_num
  have e33 : jsRound (((1 : Nat) : ℚ) / ((3 : Nat) : ℚ) * 100) = 33 := by
    rw [jsRound_eq_floor, Int.floor_eq_iff]
    constructor <;> norm_num
  rw [show computeNearMisses (handleSwipe scenDRoom "C" "7" .left).1 =
        (sortByAgreement
          (nearMissCandidates (handleSwipe scenDRoom "C" "7" .left).1)).take 10
      from rfl, hcand, e67, e33]
  decide

/-! ## C4: master pool construction and wildcard injection -/

theorem moviePassesFilter_empty (movie : Movie) (f : UserFilterState)
    (hg : f.selectedGenres = []) (hd : f.selectedDecades = [])
    (hw : f.hideWatched = false) (he : f.excludedKeys = []) :
    moviePassesFilter movie f = true := by
  simp [moviePassesFilter, hg, hd, hw, he]

/-- **C4.** `buildMasterPool` returns exactly the catalog items passing every
filter (AND across all) as display cards; with wildcards enabled and at
least one non-intersecting catalog item, it appends wildcards drawn only
from outside the intersection, `min (max 1 (round(intersectionSize ×
wildcardPercent))) candidateCount` of them; with all filters empty and
wildcards disabled the master pool is the whole catalog, and every
participant's pool starts fully unseen. -/
theorem buildMasterPool_spec (shuffle : List Movie → List Movie)
    (allMovies : List Movie) (filters : List UserFilterState)
    (options : DeckOptions)
    (hshuf : ∀ l, (shuffle l).Perm l) :
    (options.wildCards.enabled = false →
      buildMasterPool shuffle allMovies filters options =
        ((allMovies.filter (fun movie =>
            filters.all (fun f => moviePassesFilter movie f))).map movieToDeckCard,
         [])) ∧
    (∀ inter candidates,
      inter = allMovies.filter (fun movie =>
        filters.all (fun f => moviePassesFilter movie f)) →
      candidates = allMovies.filter (fun m =>
        !(((inter.map movieToDeckCard).map DeckCard.ratingKey).contains m.ratingKey)) →
      options.wildCards.enabled = true →
      candidates ≠ [] →
      ∃ wcs : List Movie,
        (buildMasterPool shuffle allMovies filters options).1 =
          inter.map movieToDeckCard ++ wcs.map movieToDeckCard ∧
        (buildMasterPool shuffle allMovies filters options).2 =
          wcs.map Movie.ratingKey ∧
        wcs.length = min (max 1 (jsRound ((inter.length : ℚ) *
          wildCardPercent options.wildCards.intensity))).toNat candidates.length ∧
        (∀ m ∈ wcs, m ∈ candidates)) ∧
    ((∀ f ∈ filters, f.selectedGenres = [] ∧ f.selectedDecades = [] ∧
        f.hideWatched = false ∧ f.excludedKeys = []) →
      options.wildCards.enabled = false →
      (buildMasterPool shuffle allMovies filters options).1 =
        allMovies.map movieToDeckCard) ∧
    (∀ (cards : List DeckCard) (wc : List String) (now currentYear : Int),
      (initProbabilityPool cards wc options now currentYear).served = [] ∧
      (initProbabilityPool cards wc options now currentYear).swiped = [] ∧
      (initProbabilityPool cards wc options now currentYear).totalSize =
        cards.length) := by
  refine ⟨?_, ?_, ?_, ?_⟩
  · intro hdis
    simp [buildMasterPool, injectWildCards, hdis]
  · intro inter candidates hinter hcand hen hne
    refine ⟨(shuffle candidates).take
      (min (max 1 (jsRound ((inter.length : ℚ) *
        wildCardPercent options.wildCards.intensity))).toNat candidates.length),
      ?_⟩
    have hlen0 : ¬ (candidates.length = 0) := by
      intro hc
      exact hne (List.length_eq_zero.mp hc)
    simp only [buildMasterPool, injectWildCards, hen, Bool.not_true,
      Bool.false_eq_true, if_false, ← hinter, ← hcand, if_neg hlen0,
      List.length_map]
    refine ⟨trivial, trivial, ?_, ?_⟩
    · rw [List.length_take, (hshuf candidates).length_eq]
      omega
    · intro m hm
      exact (hshuf candidates).mem_iff.mp (List.mem_of_mem_take hm)
  · intro hempty hdis
    have hall : allMovies.filter (fun movie =>
        filters.all (fun f => moviePassesFilter movie f)) = allMovies := by
      apply List.filter_eq_self.mpr
      intro m hm
      rw [List.all_eq_true]
      intro f hf
      obtain ⟨h1, h2, h3, h4⟩ := hempty f hf
      exact moviePassesFilter_empty m f h1 h2 h3 h4
    rw [show (buildMasterPool shuffle allMovies filters options).1 =
        ((allMovies.filter (fun movie =>
          filters.all (fun f => moviePassesFilter movie f))).map movieToDeckCard)
      from by simp [buildMasterPool, injectWildCards, hdis], hall]
  · intro cards wc now currentYear
    exact ⟨rfl, rfl, rfl⟩

/-- A catalog movie fixture. -/
def mkMovie (key : String) : Movie :=
  { ratingKey := key, title := key, year := 2000, genres := ["Action"],
    rating := none, audienceRating := none, duration := 100, summary := "",
    contentRating := "PG", viewCount := 0, addedAt := 0 }

/-- Scenario A's 20-item catalog. -/
def catalogA : List Movie := (List.range 20).map (fun i => mkMovie (toString i))

def emptyFilter : UserFilterState := ⟨[], [], false, []⟩

def noWildOptions : DeckOptions :=
  { DEFAULT_DECK_OPTIONS with wildCards := ⟨false, .medium⟩ }

/-- Witness for C4 (Scenario A): 2 ready participants with empty filters,
20-item catalog, wildcards disabled — the master pool is the whole catalog
(20 cards) and a pool built from it starts fully unseen. -/
theorem buildMasterPool_spec_witness :
    (buildMasterPool (fun l => l) catalogA [emptyFilter, emptyFilter]
        noWildOptions).1 = catalogA.map movieToDeckCard ∧
    (buildMasterPool (fun l => l) catalogA [emptyFilter, emptyFilter]
        noWildOptions).1.length = 20 ∧
    (initProbabilityPool (catalogA.map movieToDeckCard) [] noWildOptions
        0 2026).served = [] ∧
    (initProbabilityPool (catalogA.map movieToDeckCard) [] noWildOptions
        0 2026).swiped = [] ∧
    (initProbabilityPool (catalogA.map movieToDeckCard) [] noWildOptions
        0 2026).totalSize = 20 := by
  have h := buildMasterPool_spec (fun l => l) catalogA [emptyFilter, emptyFilter]
    noWildOptions (fun l => List.Perm.refl l)
  have hA := h.2.2.1 (by decide) rfl
  have hP := h.2.2.2 (catalogA.map movieToDeckCard) [] 0 2026
  refine ⟨hA, ?_, hP.1, hP.2.1, ?_⟩
  · rw [hA]
    simp [catalogA]
  · rw [hP.2.2]
    simp [catalogA]

/-! ## Weighted sampling: invariants of `sampleFromPool` (C8, C1) -/

/-- Well-formedness of a probability pool with respect to a master key set:
partitions have duplicate-free keys, are pairwise disjoint, and cover
exactly the master set. -/
def PoolWf (master : List String) (pool : ProbabilityPool) : Prop :=
  (mapKeys pool.unseen).Nodup ∧ (mapKeys pool.served).Nodup ∧
  (mapKeys pool.swiped).Nodup ∧
  (∀ k, ¬(k ∈ mapKeys pool.unseen ∧ k ∈ mapKeys pool.served)) ∧
  (∀ k, ¬(k ∈ mapKeys pool.served ∧ k ∈ mapKeys pool.swiped)) ∧
  (∀ k, ¬(k ∈ mapKeys pool.unseen ∧ k ∈ mapKeys pool.swiped)) ∧
  (∀ k, k ∈ master ↔ (k ∈ mapKeys pool.unseen ∨ k ∈ mapKeys pool.served ∨
    k ∈ mapKeys pool.swiped))

@[simp] theorem moveUnseenToServed_unseen (pool : ProbabilityPool) (k : String)
    (e : PoolEntry) : (moveUnseenToServed pool k e).unseen = mapDelete pool.unseen k := rfl

@[simp] theorem moveUnseenToServed_served (pool : ProbabilityPool) (k : String)
    (e : PoolEntry) : (moveUnseenToServed pool k e).served = mapSet pool.served k e := rfl

@[simp] theorem moveUnseenToServed_swiped (pool : ProbabilityPool) (k : String)
    (e : PoolEntry) : (moveUnseenToServed pool k e).swiped = pool.swiped := rfl

@[simp] theorem moveUnseenToServed_totalSize (pool : ProbabilityPool) (k : String)
    (e : PoolEntry) : (moveUnseenToServed pool k e).totalSize = pool.totalSize := rfl

/-- Moving a key from `unseen` to `served` preserves pool well-formedness. -/
theorem PoolWf_move (master : List String) (pool : ProbabilityPool) (k : String)
    (e : PoolEntry) (hwf : PoolWf master pool) (hk : k ∈ mapKeys pool.unseen) :
    PoolWf master (moveUnseenToServed pool k e) := by
  obtain ⟨h1, h2, h3, h4, h5, h6, h7⟩ := hwf
  unfold PoolWf
  simp only [moveUnseenToServed_unseen, moveUnseenToServed_served,
    moveUnseenToServed_swiped]
  refine ⟨nodup_mapKeys_mapDelete _ _ h1, nodup_mapKeys_mapSet _ _ _ h2, h3,
    ?_, ?_, ?_, ?_⟩
  · intro k2 hk2
    obtain ⟨ha, hb⟩ := hk2
    rw [mem_mapKeys_mapDelete] at ha
    rcases (mem_mapKeys_mapSet _ _ _ _).mp hb with rfl | hb2
    · exact ha.1 rfl
    · exact h4 k2 ⟨ha.2, hb2⟩
  · intro k2 hk2
    obtain ⟨ha, hb⟩ := hk2
    rcases (mem_mapKeys_mapSet _ _ _ _).mp ha with rfl | ha2
    · exact h6 k2 ⟨hk, hb⟩
    · exact h5 k2 ⟨ha2, hb⟩
  · intro k2 hk2
    obtain ⟨ha, hb⟩ := hk2
    rw [mem_mapKeys_mapDelete] at ha
    exact h6 k2 ⟨ha.2, hb⟩
  · intro k2
    constructor
    · intro hm
      rcases (h7 k2).mp hm with hu | hs | hw
      · by_cases hek : k2 = k
        · subst hek
          exact Or.inr (Or.inl ((mem_mapKeys_mapSet _ _ _ _).mpr (Or.inl rfl)))
        · exact Or.inl ((mem_mapKeys_mapDelete _ _ _).mpr ⟨hek, hu⟩)
      · exact Or.inr (Or.inl ((mem_mapKeys_mapSet _ _ _ _).mpr (Or.inr hs)))
      · exact Or.inr (Or.inr hw)
    · rintro (hu | hs | hw)
      · exact (h7 k2).mpr (Or.inl ((mem_mapKeys_mapDelete _ _ _).mp hu).2)
      · rcases (mem_mapKeys_mapSet _ _ _ _).mp hs with rfl | hs2
        · exact (h7 k2).mpr (Or.inl hk)
        · exact (h7 k2).mpr (Or.inr (Or.inl hs2))
      · exact (h7 k2).mpr (Or.inr (Or.inr hw))

theorem pickIdx_lt_length :
    ∀ (ws : List ℚ) (r : ℚ) (j : Nat), pickIdx ws r = some j → j < ws.length := by
  intro ws
  induction ws with
  | nil => intro r j h; simp [pickIdx] at h
  | cons w ws ih =>
    intro r j h
    unfold pickIdx at h
    split at h
    · simp only [Option.some_inj] at h
      subst h
      simp
    · cases hrec : pickIdx ws (r - w) with
      | none => rw [hrec] at h; exact Option.noConfusion h
      | some j2 =>
        rw [hrec] at h
        simp at h
        have := ih (r - w) j2 hrec
        simp only [List.length_cons]
        omega

theorem pickIdx_isSome :
    ∀ (ws : List ℚ) (r : ℚ), ws ≠ [] → (∀ w ∈ ws, 0 < w) → r < ws.sum →
      (pickIdx ws r).isSome := by
  intro ws
  induction ws with
  | nil => intro r h; exact absurd rfl h
  | cons w ws ih =>
    intro r _ hpos hr
    unfold pickIdx
    split
    · rfl
    · next hgt =>
      have hrw : r - w < ws.sum := by
        rw [List.sum_cons] at hr
        linarith
      have hws : ws ≠ [] := by
        intro hc
        subst hc
        simp only [List.sum_nil] at hrw
        have := not_le.mp (fun hle => hgt hle)
        linarith
      have hsome := ih (r - w) hws
        (fun x hx => hpos x (List.mem_cons_of_mem w hx)) hrw
      cases hp : pickIdx ws (r - w) with
      | none => rw [hp] at hsome; exact absurd hsome (by simp)
      | some j => simp [hp]

theorem fst_not_mem_eraseIdx {β : Type} (l : List (String × β)) (j : Nat)
    (c : String × β) (h : l[j]? = some c)
    (hnd : (l.map (fun p => p.1)).Nodup) :
    c.1 ∉ (l.eraseIdx j).map (fun p => p.1) := by
  induction l generalizing j with
  | nil => simp at h
  | cons p l ih =>
    simp only [List.map_cons, List.nodup_cons] at hnd
    cases j with
    | zero =>
      simp only [List.getElem?_cons_zero, Option.some_inj] at h
      subst h
      simpa using hnd.1
    | succ j =>
      simp only [List.getElem?_cons_succ] at h
      have hcl : c ∈ l := List.getElem?_mem h
      intro hmem
      rw [show (p :: l).eraseIdx (j + 1) = p :: l.eraseIdx j from rfl,
        List.map_cons] at hmem
      rcases List.mem_cons.mp hmem with h1 | h1
      · exact hnd.1 (h1 ▸ List.mem_map_of_mem (fun p => p.1) hcl)
      · exact ih j h hnd.2 h1

theorem sampleStep_getElem {rands : Nat → ℚ} {i : Nat}
    {cands : List (String × PoolEntry × ℚ)} {j : Nat}
    {c : String × PoolEntry × ℚ}
    (h : sampleStep rands i cands = some (j, c)) : cands[j]? = some c := by
  simp only [sampleStep] at h
  split at h
  · exact Option.noConfusion h
  · split at h
    · exact Option.noConfusion h
    · rename_i heq
      injection h with h2
      cases h2
      exact heq

/-- Main loop invariant of `sampleFromPool`: well-formedness is preserved,
`swiped` and `totalSize` are untouched, `unseen` only shrinks, `served` only
grows, the batch has no duplicate keys, and every batch card was `unseen`
before and is `served` (not `unseen`) after. -/
theorem sampleLoop_invariant (rands : Nat → ℚ) (master : List String) :
    ∀ (n i : Nat) (cands : List (String × PoolEntry × ℚ)) (pool : ProbabilityPool),
      PoolWf master pool →
      (∀ c ∈ cands, c.1 ∈ mapKeys pool.unseen) →
      (cands.map (fun c => c.1)).Nodup →
      (∀ c ∈ cands, c.2.1.card.ratingKey = c.1) →
      PoolWf master (sampleLoop rands n i cands pool).2 ∧
      (sampleLoop rands n i cands pool).2.swiped = pool.swiped ∧
      (sampleLoop rands n i cands pool).2.totalSize = pool.totalSize ∧
      (∀ k, k ∈ mapKeys (sampleLoop rands n i cands pool).2.unseen →
        k ∈ mapKeys pool.unseen) ∧
      (∀ k, k ∈ mapKeys pool.served →
        k ∈ mapKeys (sampleLoop rands n i cands pool).2.served) ∧
      ((sampleLoop rands n i cands pool).1.map DeckCard.ratingKey).Nodup ∧
      (∀ card ∈ (sampleLoop rands n i cands pool).1,
        card.ratingKey ∈ mapKeys pool.unseen ∧
        card.ratingKey ∉ mapKeys (sampleLoop rands n i cands pool).2.unseen ∧
        card.ratingKey ∈ mapKeys (sampleLoop rands n i cands pool).2.served) := by
  intro n
  induction n with
  | zero =>
    intro i cands pool hwf hc hnd hcons
    exact ⟨hwf, rfl, rfl, fun k h => h, fun k h => h, List.nodup_nil,
      fun card h => absurd h (List.not_mem_nil card)⟩
  | succ n ih =>
    intro i cands pool hwf hc hnd hcons
    cases hstep : sampleStep rands i cands with
    | none =>
      have hred : sampleLoop rands (n + 1) i cands pool =
          sampleLoop rands n (i + 1) cands pool := by
        simp only [sampleLoop, hstep]
      rw [hred]
      exact ih (i + 1) cands pool hwf hc hnd hcons
    | some jc =>
      obtain ⟨j, c⟩ := jc
      have hcj : cands[j]? = some c := sampleStep_getElem hstep
      have hred : sampleLoop rands (n + 1) i cands pool =
          (c.2.1.card :: (sampleLoop rands n (i + 1) (cands.eraseIdx j)
              (moveUnseenToServed pool c.1 c.2.1)).1,
           (sampleLoop rands n (i + 1) (cands.eraseIdx j)
              (moveUnseenToServed pool c.1 c.2.1)).2) := by
        simp only [sampleLoop, hstep]
      rw [hred]
      have hcmem : c ∈ cands := List.getElem?_mem hcj
      have hckey : c.1 ∈ mapKeys pool.unseen := hc c hcmem
      have hwf1 : PoolWf master (moveUnseenToServed pool c.1 c.2.1) :=
        PoolWf_move master pool c.1 c.2.1 hwf hckey
      have hnotin : c.1 ∉ (cands.eraseIdx j).map (fun p => p.1) :=
        fst_not_mem_eraseIdx cands j c hcj hnd
      have hnd2 : ((cands.eraseIdx j).map (fun p => p.1)).Nodup :=
        hnd.sublist ((List.eraseIdx_sublist cands j).map (fun p => p.1))
      have hc2 : ∀ c2 ∈ cands.eraseIdx j,
          c2.1 ∈ mapKeys (moveUnseenToServed pool c.1 c.2.1).unseen := by
        intro c2 hc2m
        rw [moveUnseenToServed_unseen, mem_mapKeys_mapDelete]
        refine ⟨?_, hc c2 ((List.eraseIdx_sublist cands j).mem hc2m)⟩
        intro heq
        exact hnotin (heq ▸ List.mem_map_of_mem (fun p => p.1) hc2m)
      have hcons2 : ∀ c2 ∈ cands.eraseIdx j, c2.2.1.card.ratingKey = c2.1 :=
        fun c2 h2 => hcons c2 ((List.eraseIdx_sublist cands j).mem h2)
      obtain ⟨ih1, ih2, ih3, ih4, ih5, ih6, ih7⟩ :=
        ih (i + 1) (cands.eraseIdx j) (moveUnseenToServed pool c.1 c.2.1)
          hwf1 hc2 hnd2 hcons2
      rw [moveUnseenToServed_swiped] at ih2
      rw [moveUnseenToServed_totalSize] at ih3
      refine ⟨ih1, ih2, ih3, ?_, ?_, ?_, ?_⟩
      · intro k hk
        have := ih4 k hk
        rw [moveUnseenToServed_unseen] at this
        exact ((mem_mapKeys_mapDelete _ _ _).mp this).2
      · intro k hk
        apply ih5
        rw [moveUnseenToServed_served, mem_mapKeys_mapSet]
        exact Or.inr hk
      · rw [List.map_cons]
        refine List.nodup_cons.mpr ⟨?_, ih6⟩
        intro hmem
        rw [hcons c hcmem] at hmem
        obtain ⟨card2, hcard2, hkey2⟩ := List.mem_map.mp hmem
        have hin := (ih7 card2 hcard2).1
        rw [moveUnseenToServed_unseen, hkey2] at hin
        exact ((mem_mapKeys_mapDelete _ _ _).mp hin).1 rfl
      · intro card hcard
        rcases List.mem_cons.mp hcard with rfl | hcard2
        · rw [hcons c hcmem]
          refine ⟨hckey, ?_, ?_⟩
          · intro hin
            have := ih4 c.1 hin
            rw [moveUnseenToServed_unseen] at this
            exact ((mem_mapKeys_mapDelete _ _ _).mp this).1 rfl
          · apply ih5
            rw [moveUnseenToServed_served, mem_mapKeys_mapSet]
            exact Or.inl rfl
        · obtain ⟨hh1, hh2, hh3⟩ := ih7 card hcard2
          rw [moveUnseenToServed_unseen] at hh1
          exact ⟨((mem_mapKeys_mapDelete _ _ _).mp hh1).2, hh2, hh3⟩

/-- Batch size of the sampling loop: one card per draw while candidates
remain, given genuine `Math.random()` draws in `[0, 1)` and the positive
clamped weights the implementation uses. -/
theorem sampleLoop_length (rands : Nat → ℚ)
    (hrand : ∀ i, 0 ≤ rands i ∧ rands i < 1) :
    ∀ (n i : Nat) (cands : List (String × PoolEntry × ℚ))
      (pool : ProbabilityPool),
      (∀ c ∈ cands, (1 : ℚ)/100 ≤ c.2.2) →
      (sampleLoop rands n i cands pool).1.length = min n cands.length := by
  intro n
  induction n with
  | zero => intro i cands pool hw; simp [sampleLoop]
  | succ n ih =>
    intro i cands pool hw
    cases cands with
    | nil =>
      have hred : sampleLoop rands (n + 1) i [] pool =
          sampleLoop rands n (i + 1) [] pool := by
        simp only [sampleLoop]
        rw [show sampleStep rands i [] = none from rfl]
      rw [hred, ih (i + 1) [] pool (by intro c hc; simp at hc)]
      simp
    | cons c0 cs =>
      have hsum : 0 < ((c0 :: cs).map fun c => c.2.2).sum := by
        rw [List.map_cons, List.sum_cons]
        have h0 : (1 : ℚ)/100 ≤ c0.2.2 := hw c0 (List.mem_cons_self c0 cs)
        have h1 : 0 ≤ (cs.map fun c => c.2.2).sum := by
          apply List.sum_nonneg
          intro x hx
          obtain ⟨cc, hcc, hccw⟩ := List.mem_map.mp hx
          have := hw cc (List.mem_cons_of_mem c0 hcc)
          rw [← hccw]
          linarith
        linarith
      have hpos : ∀ w ∈ ((c0 :: cs).map fun c => c.2.2), 0 < w := by
        intro w hwm
        obtain ⟨cc, hcc, hccw⟩ := List.mem_map.mp hwm
        have := hw cc hcc
        rw [← hccw]
        linarith
      have hrlt : rands i * ((c0 :: cs).map fun c => c.2.2).sum <
          ((c0 :: cs).map fun c => c.2.2).sum := by
        have h2 := (hrand i).2
        nlinarith [(hrand i).1]
      have hpickSome := pickIdx_isSome ((c0 :: cs).map fun c => c.2.2)
        (rands i * ((c0 :: cs).map fun c => c.2.2).sum) (by simp) hpos hrlt
      obtain ⟨j, hj⟩ := Option.isSome_iff_exists.mp hpickSome
      have hjlen : j < (c0 :: cs).length := by
        have := pickIdx_lt_length _ _ j hj
        simpa using this
      have hget : (c0 :: cs)[j]? = some (c0 :: cs)[j] :=
        List.getElem?_eq_getElem hjlen
      have hstep : sampleStep rands i (c0 :: cs) = some (j, (c0 :: cs)[j]) := by
        simp only [sampleStep, hj, hget]
      have hred : sampleLoop rands (n + 1) i (c0 :: cs) pool =
          (((c0 :: cs)[j]).2.1.card ::
            (sampleLoop rands n (i + 1) ((c0 :: cs).eraseIdx j)
              (moveUnseenToServed pool ((c0 :: cs)[j]).1 ((c0 :: cs)[j]).2.1)).1,
           (sampleLoop rands n (i + 1) ((c0 :: cs).eraseIdx j)
              (moveUnseenToServed pool ((c0 :: cs)[j]).1 ((c0 :: cs)[j]).2.1)).2) := by
        simp only [sampleLoop, hstep]
      have herase : ((c0 :: cs).eraseIdx j).length = cs.length := by
        rw [List.length_eraseIdx]
        have hj2 : j < cs.length + 1 := by simpa using hjlen
        simp [hj2]
      have hred1 : (sampleLoop rands (n + 1) i (c0 :: cs) pool).1 =
          ((c0 :: cs)[j]).2.1.card ::
            (sampleLoop rands n (i + 1) ((c0 :: cs).eraseIdx j)
              (moveUnseenToServed pool ((c0 :: cs)[j]).1 ((c0 :: cs)[j]).2.1)).1 := by
        rw [hred]
      rw [hred1, List.length_cons]
      rw [ih (i + 1) ((c0 :: cs).eraseIdx j) _ (fun c2 h2 =>
        hw c2 ((List.eraseIdx_sublist (c0 :: cs) j).mem h2)), herase]
      simp only [List.length_cons]
      omega

/-- Top-level specification of `sampleFromPool`. -/
theorem sampleFromPool_spec (rands : Nat → ℚ) (pool : ProbabilityPool)
    (count : Nat) (master : List String)
    (hwf : PoolWf master pool)
    (hcons : ∀ p ∈ pool.unseen, p.2.card.ratingKey = p.1)
    (hrand : ∀ i, 0 ≤ rands i ∧ rands i < 1) :
    (sampleFromPool rands pool count).1.length = min count pool.unseen.length ∧
    PoolWf master (sampleFromPool rands pool count).2 ∧
    (sampleFromPool rands pool count).2.swiped = pool.swiped ∧
    (sampleFromPool rands pool count).2.totalSize = pool.totalSize ∧
    (∀ k, k ∉ mapKeys pool.unseen →
      k ∉ mapKeys (sampleFromPool rands pool count).2.unseen) ∧
    ((sampleFromPool rands pool count).1.map DeckCard.ratingKey).Nodup ∧
    (∀ card ∈ (sampleFromPool rands pool count).1,
      card.ratingKey ∈ mapKeys pool.unseen ∧
      card.ratingKey ∉ mapKeys (sampleFromPool rands pool count).2.unseen ∧
      card.ratingKey ∈ mapKeys (sampleFromPool rands pool count).2.served) := by
  by_cases h0 : pool.unseen.length = 0
  · have hred : sampleFromPool rands pool count = ([], pool) := by
      simp [sampleFromPool, h0]
    rw [hred]
    exact ⟨by simp [h0], hwf, rfl, rfl, fun k h h2 => h h2, List.nodup_nil,
      fun c h => absurd h (List.not_mem_nil c)⟩
  · have hred : sampleFromPool rands pool count =
        sampleLoop rands (min count pool.unseen.length) 0
          (pool.unseen.map (fun p => (p.1, p.2, max p.2.dynamicWeight (1/100))))
          pool := by
      simp [sampleFromPool, h0]
    have hckeys : ∀ c ∈ pool.unseen.map
        (fun p => (p.1, p.2, max p.2.dynamicWeight (1/100))),
        c.1 ∈ mapKeys pool.unseen := by
      intro c hc
      obtain ⟨p, hp, rfl⟩ := List.mem_map.mp hc
      exact List.mem_map_of_mem Prod.fst hp
    have hcnd : ((pool.unseen.map
        (fun p => (p.1, p.2, max p.2.dynamicWeight (1/100)))).map
          (fun c => c.1)).Nodup := by
      have hsame : (pool.unseen.map
          (fun p => (p.1, p.2, max p.2.dynamicWeight (1/100)))).map
            (fun c => c.1) = mapKeys pool.unseen := by
        rw [List.map_map]
        rfl
      rw [hsame]
      exact hwf.1
    have hccons : ∀ c ∈ pool.unseen.map
        (fun p => (p.1, p.2, max p.2.dynamicWeight (1/100))),
        c.2.1.card.ratingKey = c.1 := by
      intro c hc
      obtain ⟨p, hp, rfl⟩ := List.mem_map.mp hc
      exact hcons p hp
    have hweights : ∀ c ∈ pool.unseen.map
        (fun p => (p.1, p.2, max p.2.dynamicWeight (1/100))),
        (1 : ℚ)/100 ≤ c.2.2 := by
      intro c hc
      obtain ⟨p, hp, rfl⟩ := List.mem_map.mp hc
      exact le_max_right _ _
    obtain ⟨i1, i2, i3, i4, i5, i6, i7⟩ := sampleLoop_invariant rands master
      (min count pool.unseen.length) 0
      (pool.unseen.map (fun p => (p.1, p.2, max p.2.dynamicWeight (1/100))))
      pool hwf hckeys hcnd hccons
    have hlength := sampleLoop_length rands hrand
      (min count pool.unseen.length) 0
      (pool.unseen.map (fun p => (p.1, p.2, max p.2.dynamicWeight (1/100))))
      pool hweights
    rw [hred]
    refine ⟨?_, i1, i2, i3, ?_, i6, i7⟩
    · rw [hlength, List.length_map]
      omega
    · intro k hk hkin
      exact hk (i4 k hkin)

/-! ## C8: requestCards clamping and serving -/

/-- **C8.** With pools built and the session live, `handleRequestCards`
serves `min (clamp(count, 1, 10)) |unseen|` cards regardless of the client
count, drawn from the caller's `unseen` only, without replacement, each
drawn card moving from `unseen` to `served`; the batch is sent as a single
`cards_served` message when non-empty. -/
theorem handleRequestCards_spec (rands : Nat → ℚ) (room : Room)
    (pid : String) (count : Int) (pool : ProbabilityPool) (master : List String)
    (hss : room.sessionStatus = .swiping)
    (hp : mapGet room.probabilityPools pid = some pool)
    (hwf : PoolWf master pool)
    (hcons : ∀ p ∈ pool.unseen, p.2.card.ratingKey = p.1)
    (hrand : ∀ i, 0 ≤ rands i ∧ rands i < 1) :
    (handleRequestCards rands room pid count).1.probabilityPools =
      mapSet room.probabilityPools pid
        (sampleFromPool rands pool (min (max count 1) SERVER_MAX_CLAMP).toNat).2 ∧
    (1 : Int) ≤ min (max count 1) SERVER_MAX_CLAMP ∧
    min (max count 1) SERVER_MAX_CLAMP ≤ 10 ∧
    (sampleFromPool rands pool (min (max count 1) SERVER_MAX_CLAMP).toNat).1.length =
      min (min (max count 1) SERVER_MAX_CLAMP).toNat pool.unseen.length ∧
    ((sampleFromPool rands pool
        (min (max count 1) SERVER_MAX_CLAMP).toNat).1.map DeckCard.ratingKey).Nodup ∧
    (∀ card ∈ (sampleFromPool rands pool
        (min (max count 1) SERVER_MAX_CLAMP).toNat).1,
      card.ratingKey ∈ mapKeys pool.unseen ∧
      card.ratingKey ∉ mapKeys (sampleFromPool rands pool
        (min (max count 1) SERVER_MAX_CLAMP).toNat).2.unseen ∧
      card.ratingKey ∈ mapKeys (sampleFromPool rands pool
        (min (max count 1) SERVER_MAX_CLAMP).toNat).2.served) ∧
    ((sampleFromPool rands pool
        (min (max count 1) SERVER_MAX_CLAMP).toNat).1.length > 0 →
      (handleRequestCards rands room pid count).2 =
        [.cardsServed (sampleFromPool rands pool
          (min (max count 1) SERVER_MAX_CLAMP).toNat).1]) := by
  obtain ⟨s1, _, _, _, _, s6, s7⟩ := sampleFromPool_spec rands pool
    (min (max count 1) SERVER_MAX_CLAMP).toNat master hwf hcons hrand
  refine ⟨?_, ?_, ?_, s1, s6, s7, ?_⟩
  · simp only [handleRequestCards, hss, reduceCtorEq, if_false, hp]
  · simp only [SERVER_MAX_CLAMP]
    omega
  · simp only [SERVER_MAX_CLAMP]
    omega
  · intro hlen
    simp only [handleRequestCards, hss, reduceCtorEq, if_false, hp]
    rw [if_pos hlen]

theorem samplePool_wf : PoolWf ["7", "9"] samplePool := by
  refine ⟨by decide, by decide, by decide, ?_, ?_, ?_, ?_⟩
  · intro k hk
    obtain ⟨h1, h2⟩ := hk
    simp [samplePool, mapKeys, sampleEntry] at h1 h2
    rw [h1] at h2
    exact absurd h2 (by decide)
  · intro k hk
    obtain ⟨h1, h2⟩ := hk
    simp [samplePool, mapKeys, sampleEntry] at h2
  · intro k hk
    obtain ⟨h1, h2⟩ := hk
    simp [samplePool, mapKeys, sampleEntry] at h2
  · intro k
    simp [samplePool, mapKeys, sampleEntry]

/-- Witness for C8: a request for 99 cards is clamped to 10 and serves the
single unseen card of the pool. -/
theorem handleRequestCards_spec_witness :
    (handleRequestCards (fun _ => 1/2) sampleRoom "A" 99).1.probabilityPools =
      mapSet sampleRoom.probabilityPools "A"
        (sampleFromPool (fun _ => 1/2) samplePool
          (min (max 99 1) SERVER_MAX_CLAMP).toNat).2 ∧
    (sampleFromPool (fun _ => 1/2) samplePool
      (min (max 99 1) SERVER_MAX_CLAMP).toNat).1.length = 1 := by
  have hcons : ∀ p ∈ samplePool.unseen, p.2.card.ratingKey = p.1 := by
    intro p hp
    simp only [samplePool] at hp
    obtain rfl := List.mem_singleton.mp hp
    rfl
  have h := handleRequestCards_spec (fun _ => 1/2) sampleRoom "A" 99 samplePool
    ["7", "9"] rfl rfl samplePool_wf hcons
    (fun i => ⟨by norm_num, by norm_num⟩)
  refine ⟨h.1, ?_⟩
  rw [h.2.2.2.1]
  decide

/-! ## C1: the three-partition invariant -/

theorem mem_mapKeys_foldl_mapSet (entryF : DeckCard → PoolEntry) :
    ∀ (cards : List DeckCard) (m : List (String × PoolEntry)) (key : String),
      key ∈ mapKeys (cards.foldl
        (fun acc card => mapSet acc card.ratingKey (entryF card)) m) ↔
      key ∈ mapKeys m ∨ key ∈ cards.map DeckCard.ratingKey := by
  intro cards
  induction cards with
  | nil => intro m key; simp
  | cons c cs ih =>
    intro m key
    rw [List.foldl_cons, ih, mem_mapKeys_mapSet, List.map_cons, List.mem_cons]
    tauto

theorem nodup_mapKeys_foldl_mapSet (entryF : DeckCard → PoolEntry) :
    ∀ (cards : List DeckCard) (m : List (String × PoolEntry)),
      (mapKeys m).Nodup →
      (mapKeys (cards.foldl
        (fun acc card => mapSet acc card.ratingKey (entryF card)) m)).Nodup := by
  intro cards
  induction cards with
  | nil => intro m h; exact h
  | cons c cs ih =>
    intro m h
    rw [List.foldl_cons]
    exact ih _ (nodup_mapKeys_mapSet _ _ _ h)

/-- `initProbabilityPool` establishes the partition invariant with the
master set being the cards' keys, everything unseen. -/
theorem initProbabilityPool_wf (cards : List DeckCard) (wc : List String)
    (options : DeckOptions) (now cy : Int) :
    PoolWf (cards.map DeckCard.ratingKey)
      (initProbabilityPool cards wc options now cy) := by
  unfold initProbabilityPool PoolWf
  refine ⟨?_, List.nodup_nil, List.nodup_nil, ?_, ?_, ?_, ?_⟩
  · exact nodup_mapKeys_foldl_mapSet _ cards [] List.nodup_nil
  · intro key hk
    simpa [mapKeys] using hk.2
  · intro key hk
    simpa [mapKeys] using hk.1
  · intro key hk
    simpa [mapKeys] using hk.2
  · intro key
    rw [mem_mapKeys_foldl_mapSet]
    simp [mapKeys]

/-- `updatePoolWeights` moves nothing between partitions. -/
theorem updatePoolWeights_keys (pool : ProbabilityPool) (k : String)
    (dir : SwipeDirection) (opts : DeckOptions) :
    mapKeys (updatePoolWeights pool k dir opts).unseen = mapKeys pool.unseen ∧
    (updatePoolWeights pool k dir opts).served = pool.served ∧
    (updatePoolWeights pool k dir opts).swiped = pool.swiped := by
  unfold updatePoolWeights
  cases hq : mapGet pool.unseen k with
  | none => exact ⟨rfl, rfl, rfl⟩
  | some e =>
    exact ⟨mapKeys_mapSet_of_mem _ _ (mem_mapKeys_of_mapGet hq), rfl, rfl⟩

theorem updatePoolWeights_wf (master : List String) (pool : ProbabilityPool)
    (k : String) (dir : SwipeDirection) (opts : DeckOptions)
    (hwf : PoolWf master pool) :
    PoolWf master (updatePoolWeights pool k dir opts) := by
  obtain ⟨k1, k2, k3⟩ := updatePoolWeights_keys pool k dir opts
  unfold PoolWf
  rw [k1, k2, k3]
  exact hwf

/-- The served → swiped move of `handleSwipe` preserves the invariant and
leaves `unseen` untouched. -/
theorem moveServedToSwiped_wf (master : List String) (pool : ProbabilityPool)
    (k : String) (hwf : PoolWf master pool) :
    PoolWf master (moveServedToSwiped pool k) ∧
    (moveServedToSwiped pool k).unseen = pool.unseen := by
  unfold moveServedToSwiped
  cases hq : mapGet pool.served k with
  | none => exact ⟨hwf, rfl⟩
  | some e =>
    obtain ⟨h1, h2, h3, h4, h5, h6, h7⟩ := hwf
    have hk : k ∈ mapKeys pool.served := mem_mapKeys_of_mapGet hq
    refine ⟨⟨h1, nodup_mapKeys_mapDelete _ _ h2, nodup_mapKeys_mapSet _ _ _ h3,
      ?_, ?_, ?_, ?_⟩, rfl⟩
    · intro k2 hk2
      obtain ⟨ha, hb⟩ := hk2
      rw [mem_mapKeys_mapDelete] at hb
      exact h4 k2 ⟨ha, hb.2⟩
    · intro k2 hk2
      obtain ⟨ha, hb⟩ := hk2
      rw [mem_mapKeys_mapDelete] at ha
      rcases (mem_mapKeys_mapSet _ _ _ _).mp hb with rfl | hb2
      · exact ha.1 rfl
      · exact h5 k2 ⟨ha.2, hb2⟩
    · intro k2 hk2
      obtain ⟨ha, hb⟩ := hk2
      rcases (mem_mapKeys_mapSet _ _ _ _).mp hb with rfl | hb2
      · exact h4 k2 ⟨ha, hk⟩
      · exact h6 k2 ⟨ha, hb2⟩
    · intro k2
      constructor
      · intro hm
        rcases (h7 k2).mp hm with hu | hs | hw
        · exact Or.inl hu
        · by_cases hek : k2 = k
          · subst hek
            exact Or.inr (Or.inr ((mem_mapKeys_mapSet _ _ _ _).mpr (Or.inl rfl)))
          · exact Or.inr (Or.inl ((mem_mapKeys_mapDelete _ _ _).mpr ⟨hek, hs⟩))
        · exact Or.inr (Or.inr ((mem_mapKeys_mapSet _ _ _ _).mpr (Or.inr hw)))
      · rintro (hu | hs | hw)
        · exact (h7 k2).mpr (Or.inl hu)
        · exact (h7 k2).mpr (Or.inr (Or.inl
            ((mem_mapKeys_mapDelete _ _ _).mp hs).2))
        · rcases (mem_mapKeys_mapSet _ _ _ _).mp hw with rfl | hw2
          · exact (h7 k2).mpr (Or.inr (Or.inl hk))
          · exact (h7 k2).mpr (Or.inr (Or.inr hw2))

/-- **C1.** Every pool operation preserves the three-partition invariant:
`initProbabilityPool` establishes it (everything unseen, union = master
card keys), `sampleFromPool` moves cards `unseen → served` only,
`updatePoolWeights` moves nothing, and `handleSwipe` preserves it for every
participant's pool; a card absent from `unseen` never reappears there. -/
theorem probabilityPool_partition_invariant
    (room : Room) (cards : List DeckCard) (pid k : String) (dir : SwipeDirection)
    (pool : ProbabilityPool) (master : List String)
    (hmc : room.masterCards = some cards) (hss : room.sessionStatus = .swiping)
    (hp : mapGet room.probabilityPools pid = some pool)
    (hall : ∀ pid2 q, mapGet room.probabilityPools pid2 = some q →
      PoolWf master q) :
    (∀ (cs : List DeckCard) (wc : List String) (opts : DeckOptions)
        (now cy : Int),
      PoolWf (cs.map DeckCard.ratingKey) (initProbabilityPool cs wc opts now cy) ∧
      (initProbabilityPool cs wc opts now cy).served = [] ∧
      (initProbabilityPool cs wc opts now cy).swiped = []) ∧
    (∀ (rands : Nat → ℚ) (q : ProbabilityPool) (count : Nat),
      PoolWf master q → (∀ p ∈ q.unseen, p.2.card.ratingKey = p.1) →
      (∀ i, 0 ≤ rands i ∧ rands i < 1) →
      PoolWf master (sampleFromPool rands q count).2 ∧
      (∀ kk, kk ∉ mapKeys q.unseen →
        kk ∉ mapKeys (sampleFromPool rands q count).2.unseen)) ∧
    (∀ (q : ProbabilityPool) (opts : DeckOptions),
      PoolWf master q →
      PoolWf master (updatePoolWeights q k dir opts) ∧
      mapKeys (updatePoolWeights q k dir opts).unseen = mapKeys q.unseen ∧
      (updatePoolWeights q k dir opts).served = q.served ∧
      (updatePoolWeights q k dir opts).swiped = q.swiped) ∧
    (∀ pid2 q2,
      mapGet (handleSwipe room pid k dir).1.probabilityPools pid2 = some q2 →
      PoolWf master q2) ∧
    (∀ pid2 q q2, mapGet room.probabilityPools pid2 = some q →
      mapGet (handleSwipe room pid k dir).1.probabilityPools pid2 = some q2 →
      ∀ kk, kk ∉ mapKeys q.unseen → kk ∉ mapKeys q2.unseen) := by
  have hpools := handleSwipe_probabilityPools room cards pid k dir pool hmc hss hp
  refine ⟨?_, ?_, ?_, ?_, ?_⟩
  · intro cs wc opts now cy
    exact ⟨initProbabilityPool_wf cs wc opts now cy, rfl, rfl⟩
  · intro rands q count hq hcons hrand
    obtain ⟨_, s2, _, _, s5, _, _⟩ :=
      sampleFromPool_spec rands q count master hq hcons hrand
    exact ⟨s2, s5⟩
  · intro q opts hq
    obtain ⟨k1, k2, k3⟩ := updatePoolWeights_keys q k dir opts
    exact ⟨updatePoolWeights_wf master q k dir opts hq, k1, k2, k3⟩
  · intro pid2 q2 hq2
    rw [hpools] at hq2
    by_cases hpe : pid2 = pid
    · subst hpe
      rw [mapGet_propagateWeights_self, mapGet_mapSet_self] at hq2
      obtain rfl := Option.some_inj.mp hq2
      exact (moveServedToSwiped_wf master pool k (hall pid2 pool hp)).1
    · rw [mapGet_propagateWeights_other _ _ _ _ _ _ hpe,
        mapGet_mapSet_ne _ _ hpe] at hq2
      cases hq0 : mapGet room.probabilityPools pid2 with
      | none => rw [hq0] at hq2; exact Option.noConfusion hq2
      | some q0 =>
        rw [hq0] at hq2
        have hq2e : updatePoolWeights q0 k dir room.deckOptions = q2 :=
          Option.some_inj.mp hq2
        rw [← hq2e]
        exact updatePoolWeights_wf master q0 k dir room.deckOptions
          (hall pid2 q0 hq0)
  · intro pid2 q q2 hq hq2 kk hkk
    rw [hpools] at hq2
    by_cases hpe : pid2 = pid
    · subst hpe
      rw [mapGet_propagateWeights_self, mapGet_mapSet_self] at hq2
      obtain rfl := Option.some_inj.mp hq2
      have hqpool : pool = q := by
        rw [hp] at hq
        exact Option.some_inj.mp hq
      rw [(moveServedToSwiped_wf master pool k (hall pid2 pool hp)).2, hqpool]
      exact hkk
    · rw [mapGet_propagateWeights_other _ _ _ _ _ _ hpe,
        mapGet_mapSet_ne _ _ hpe, hq] at hq2
      have hq2e : updatePoolWeights q k dir room.deckOptions = q2 :=
        Option.some_inj.mp hq2
      rw [← hq2e, (updatePoolWeights_keys q k dir room.deckOptions).1]
      exact hkk

/-- Witness for C1 in the concrete two-participant room. -/
theorem probabilityPool_partition_invariant_witness :
    PoolWf [(sampleCard "7").ratingKey, (sampleCard "9").ratingKey]
      (initProbabilityPool [sampleCard "7", sampleCard "9"] []
        DEFAULT_DECK_OPTIONS 0 2026) ∧
    (∀ pid2 q2,
      mapGet (handleSwipe sampleRoom "A" "9" .right).1.probabilityPools pid2 =
        some q2 → PoolWf ["7", "9"] q2) := by
  have hall : ∀ pid2 q, mapGet sampleRoom.probabilityPools pid2 = some q →
      PoolWf ["7", "9"] q := by
    intro pid2 q hq
    simp only [sampleRoom, mapGet] at hq
    split at hq
    · obtain rfl := Option.some_inj.mp hq
      exact samplePool_wf
    · split at hq
      · obtain rfl := Option.some_inj.mp hq
        exact samplePool_wf
      · exact Option.noConfusion hq
  have h := probabilityPool_partition_invariant sampleRoom
    [sampleCard "7", sampleCard "9"] "A" "9" .right samplePool ["7", "9"]
    rfl rfl rfl hall
  exact ⟨(h.1 [sampleCard "7", sampleCard "9"] [] DEFAULT_DECK_OPTIONS 0 2026).1,
    h.2.2.2.1⟩

/-! ## C7: exactly one host, host transfer, room destruction -/

theorem mem_of_mapGet {α : Type} {m : List (String × α)} {k : String} {v : α}
    (h : mapGet m k = some v) : (k, v) ∈ m := by
  induction m with
  | nil => simp [mapGet] at h
  | cons p m ih =>
    obtain ⟨a, b⟩ := p
    by_cases ha : a = k
    · subst ha
      rw [mapGet_cons, if_pos rfl] at h
      obtain rfl := Option.some_inj.mp h
      exact List.mem_cons_self _ _
    · rw [mapGet_cons, if_neg ha] at h
      exact List.mem_cons_of_mem _ (ih h)

theorem mapDelete_of_not_mem {α : Type} (m : List (String × α)) (k : String)
    (h : k ∉ mapKeys m) : mapDelete m k = m := by
  induction m with
  | nil => rfl
  | cons p m ih =>
    simp only [mapKeys_cons, List.mem_cons] at h
    push_neg at h
    have hne : ¬ (p.1 = k) := fun hc => h.1 hc.symm
    rw [show mapDelete (p :: m) k = p :: mapDelete m k from by
      simp [mapDelete, List.filter_cons, hne]]
    rw [ih h.2]

theorem mapSet_of_not_mem {α : Type} (m : List (String × α)) (k : String)
    (v : α) (h : k ∉ mapKeys m) : mapSet m k v = m ++ [(k, v)] := by
  induction m with
  | nil => rfl
  | cons p m ih =>
    simp only [mapKeys_cons, List.mem_cons] at h
    push_neg at h
    have hne : ¬ (p.1 = k) := fun hc => h.1 hc.symm
    rw [show mapSet (p :: m) k v = p :: mapSet m k v from by
      simp [mapSet, hne]]
    rw [ih h.2, List.cons_append]

/-- Deleting the binding of `k` removes exactly its contribution to a count
(under duplicate-free keys). -/
theorem countP_mapDelete {α : Type} (pr : String × α → Bool) :
    ∀ (m : List (String × α)) (k : String) (v : α),
      (mapKeys m).Nodup → mapGet m k = some v →
      m.countP pr = (mapDelete m k).countP pr + (if pr (k, v) then 1 else 0) := by
  intro m
  induction m with
  | nil => intro k v _ h; simp [mapGet] at h
  | cons p m ih =>
    intro k v hnd h
    obtain ⟨a, b⟩ := p
    simp only [mapKeys_cons, List.nodup_cons] at hnd
    by_cases ha : a = k
    · subst ha
      rw [mapGet_cons, if_pos rfl] at h
      obtain rfl := Option.some_inj.mp h
      rw [show mapDelete ((a, b) :: m) a = mapDelete m a from by
        simp [mapDelete], mapDelete_of_not_mem m a hnd.1]
      rw [List.countP_cons]
    · rw [mapGet_cons, if_neg ha] at h
      rw [show mapDelete ((a, b) :: m) k = (a, b) :: mapDelete m k from by
        simp [mapDelete, ha]]
      rw [List.countP_cons, List.countP_cons, ih k v hnd.2 h]
      omega

/-- Number of participants flagged as host. -/
def hostCount (room : Room) : Nat :=
  room.participants.countP (fun p => p.2.isHost)

/-- Host well-formedness: a non-empty room has exactly one host flag, held
by the participant stored under `hostId`. -/
def HostWf (room : Room) : Prop :=
  room.participants ≠ [] →
    hostCount room = 1 ∧
    ∃ p, mapGet room.participants room.hostId = some p ∧ p.isHost = true
theorem countP_mapSet_fresh {α : Type} (pr : String × α → Bool)
    (m : List (String × α)) (k : String) (v : α)
    (hk : k ∉ mapKeys m) (hv : pr (k, v) = false) :
    (mapSet m k v).countP pr = m.countP pr := by
  rw [mapSet_of_not_mem m k v hk, List.countP_append]
  simp [hv, List.countP_cons]

/-- Inversion of a successful `createRoom`: a one-participant room whose
single participant is the host. -/
theorem createRoom_ok (socket : Nat) (code id tok nickname : String)
    (now : Int) (room2 : Room)
    (hok : createRoom socket code id tok nickname now = .ok room2) :
    ∃ p, room2.participants = [(id, p)] ∧ p.isHost = true ∧
      room2.hostId = id := by
  simp only [createRoom] at hok
  cases hv : validateNickname nickname with
  | some e => rw [hv] at hok; exact Except.noConfusion hok
  | none =>
    rw [hv] at hok
    injection hok with h2
    exact ⟨_, by rw [← h2], rfl, by rw [← h2]⟩

/-- Inversion of a successful `joinRoom`: the new participant is appended
with `isHost = false` and the host is unchanged. -/
theorem joinRoom_ok (room : Room) (socket : Nat) (id tok nickname : String)
    (nowMod : Nat) (room2 : Room) (msgs : List ServerMsg)
    (hok : joinRoom room socket id tok nickname nowMod = .ok (room2, msgs)) :
    ∃ p, room2.participants = mapSet room.participants id p ∧
      p.isHost = false ∧ room2.hostId = room.hostId := by
  simp only [joinRoom] at hok
  cases hv : validateNickname nickname with
  | some e => rw [hv] at hok; exact Except.noConfusion hok
  | none =>
    rw [hv] at hok
    by_cases hfull : room.participants.length ≥ MAX_PARTICIPANTS
    · rw [if_pos hfull] at hok
      exact Except.noConfusion hok
    · rw [if_neg hfull] at hok
      injection hok with h2
      obtain ⟨h3, -⟩ := Prod.mk.injEq .. |>.mp h2
      exact ⟨_, by rw [← h3], rfl, by rw [← h3]⟩

/-- Structural description of `removeParticipant` on a room that survives:
per-participant state of the removed participant is deleted, all vote and
counter maps are untouched, the host transfers to the head of the remaining
participant list exactly when the removed participant was host, and the
session-token entries are gone. -/
theorem removeParticipant_room_eq (st : ManagerState) (room : Room)
    (participantId : String) (p : Participant)
    (hroom : st.room = some room)
    (hget : mapGet room.participants participantId = some p)
    (hne : mapDelete room.participants participantId ≠ []) :
    ∃ room2, (removeParticipant st participantId).1.room = some room2 ∧
      room2.filterStates = mapDelete room.filterStates participantId ∧
      room2.readyParticipants = setDelete room.readyParticipants participantId ∧
      room2.probabilityPools = mapDelete room.probabilityPools participantId ∧
      room2.swipeVotes = room.swipeVotes ∧
      room2.rightSwipeCounts = room.rightSwipeCounts ∧
      room2.leftSwipeCounts = room.leftSwipeCounts ∧
      room2.swipeCounts = room.swipeCounts ∧
      room2.masterCards = room.masterCards ∧
      room2.sessionStatus = room.sessionStatus ∧
      (room.hostId ≠ participantId →
        room2.participants = mapDelete room.participants participantId ∧
        room2.hostId = room.hostId) ∧
      (room.hostId = participantId →
        ∀ nid np rest,
          mapDelete room.participants participantId = (nid, np) :: rest →
          room2.participants = (nid, { np with isHost := true }) :: rest ∧
          room2.hostId = nid) ∧
      mapGet (removeParticipant st participantId).1.sessionTokenToRoom
        p.sessionToken = none ∧
      mapGet (removeParticipant st participantId).1.sessionTokenToId
        p.sessionToken = none := by
  have hlen : ¬ ((mapDelete room.participants participantId).length = 0) := by
    intro hc
    exact hne (List.length_eq_zero.mp hc)
  by_cases hhost : room.hostId = participantId
  · cases hdl : mapDelete room.participants participantId with
    | nil => exact absurd hdl hne
    | cons hd rest0 =>
      obtain ⟨nid0, np0⟩ := hd
      have hred : removeParticipant st participantId =
          ({ room := some { room with
                filterStates := mapDelete room.filterStates participantId
                readyParticipants := setDelete room.readyParticipants participantId
                probabilityPools := mapDelete room.probabilityPools participantId
                participants := (nid0, { np0 with isHost := true }) :: rest0
                hostId := nid0 }
             sessionTokenToRoom := mapDelete st.sessionTokenToRoom p.sessionToken
             sessionTokenToId := mapDelete st.sessionTokenToId p.sessionToken
             disconnectTimers := setDelete st.disconnectTimers participantId },
           [.participantLeft participantId (some nid0)]) := by
        simp only [removeParticipant, hroom, hget]
        rw [if_neg (by rw [hdl] at hlen ⊢; exact hlen)]
        rw [show (({ room with
            filterStates := mapDelete room.filterStates participantId
            readyParticipants := setDelete room.readyParticipants participantId
            probabilityPools := mapDelete room.probabilityPools participantId
            participants := mapDelete room.participants participantId
            } : Room).hostId == participantId) = true from by
          simp [hhost]]
        simp only [if_true, hdl]
      rw [hred]
      refine ⟨_, rfl, rfl, rfl, rfl, rfl, rfl, rfl, rfl, rfl, rfl, ?_, ?_,
        mapGet_mapDelete_self _ _, mapGet_mapDelete_self _ _⟩
      · intro hc
        exact absurd hhost hc
      · intro _ nid np rest hdl2
        obtain ⟨h1, h2⟩ := List.cons.injEq .. |>.mp hdl2
        obtain ⟨h3, h4⟩ := Prod.mk.injEq .. |>.mp h1
        subst h3
        subst h4
        subst h2
        exact ⟨rfl, rfl⟩
  · have hred : removeParticipant st participantId =
        ({ room := some { room with
              filterStates := mapDelete room.filterStates participantId
              readyParticipants := setDelete room.readyParticipants participantId
              probabilityPools := mapDelete room.probabilityPools participantId
              participants := mapDelete room.participants participantId }
           sessionTokenToRoom := mapDelete st.sessionTokenToRoom p.sessionToken
           sessionTokenToId := mapDelete st.sessionTokenToId p.sessionToken
           disconnectTimers := setDelete st.disconnectTimers participantId },
         [.participantLeft participantId none]) := by
      simp only [removeParticipant, hroom, hget]
      rw [if_neg hlen]
      rw [show (({ room with
          filterStates := mapDelete room.filterStates participantId
          readyParticipants := setDelete room.readyParticipants participantId
          probabilityPools := mapDelete room.probabilityPools participantId
          participants := mapDelete room.participants participantId
          } : Room).hostId == participantId) = false from by
        simp [hhost]]
      simp only [Bool.false_eq_true, if_false]
    rw [hred]
    refine ⟨_, rfl, rfl, rfl, rfl, rfl, rfl, rfl, rfl, rfl, rfl,
      fun _ => ⟨rfl, rfl⟩, ?_,
      mapGet_mapDelete_self _ _, mapGet_mapDelete_self _ _⟩
    intro hc
    exact absurd hc hhost

/-- `removeParticipant` destroys the room when the last participant leaves. -/
theorem removeParticipant_destroys (st : ManagerState) (room : Room)
    (participantId : String) (p : Participant)
    (hroom : st.room = some room)
    (hget : mapGet room.participants participantId = some p)
    (hempty : mapDelete room.participants participantId = []) :
    (removeParticipant st participantId).1.room = none := by
  simp only [removeParticipant, hroom, hget]
  rw [if_pos (by rw [hempty]; rfl)]

/-- **C7.** Every non-empty room has exactly one participant with
`isHost = true`: `createRoom` establishes this, `joinRoom` preserves it,
and `removeParticipant` preserves it — transferring host status to the
first remaining participant in iteration order when the host is removed,
and destroying the room when the last participant is removed. -/
theorem host_invariant (st : ManagerState) (room : Room) (participantId : String)
    (hroom : st.room = some room)
    (hwf : HostWf room)
    (hnd : (mapKeys room.participants).Nodup) :
    (∀ (socket : Nat) (code id tok nickname : String) (now : Int)
        (room2 : Room),
      createRoom socket code id tok nickname now = .ok room2 →
      hostCount room2 = 1 ∧ HostWf room2) ∧
    (∀ (socket : Nat) (id tok nickname : String) (nowMod : Nat)
        (room2 : Room) (msgs : List ServerMsg),
      id ∉ mapKeys room.participants →
      room.participants ≠ [] →
      joinRoom room socket id tok nickname nowMod = .ok (room2, msgs) →
      hostCount room2 = 1 ∧ HostWf room2) ∧
    (∀ p, mapGet room.participants participantId = some p →
      (mapDelete room.participants participantId = [] →
        (removeParticipant st participantId).1.room = none) ∧
      (mapDelete room.participants participantId ≠ [] →
        ∃ room2, (removeParticipant st participantId).1.room = some room2 ∧
          hostCount room2 = 1 ∧ HostWf room2 ∧
          (room.hostId = participantId →
            (mapKeys (mapDelete room.participants participantId)).head? =
              some room2.hostId) ∧
          (room.hostId ≠ participantId → room2.hostId = room.hostId))) := by
  refine ⟨?_, ?_, ?_⟩
  · intro socket code id tok nickname now room2 hok
    obtain ⟨q, hpart, hqh, hhid⟩ := createRoom_ok socket code id tok nickname
      now room2 hok
    have hcnt : hostCount room2 = 1 := by
      unfold hostCount
      rw [hpart]
      simp [List.countP_cons, hqh]
    refine ⟨hcnt, fun _ => ⟨hcnt, ⟨q, ?_, hqh⟩⟩⟩
    rw [hpart, hhid, mapGet_cons, if_pos rfl]
  · intro socket id tok nickname nowMod room2 msgs hid hne hok
    obtain ⟨q, hpart, hqh, hhid⟩ := joinRoom_ok room socket id tok nickname
      nowMod room2 msgs hok
    obtain ⟨hcnt, ph, hph, phh⟩ := hwf hne
    have hostMem : room.hostId ∈ mapKeys room.participants :=
      mem_mapKeys_of_mapGet hph
    have hostNe : room.hostId ≠ id := fun hc => hid (hc ▸ hostMem)
    have hcnt2 : hostCount room2 = 1 := by
      unfold hostCount
      rw [hpart, countP_mapSet_fresh _ _ _ _ hid (by simp [hqh])]
      exact hcnt
    refine ⟨hcnt2, fun _ => ⟨hcnt2, ⟨ph, ?_, phh⟩⟩⟩
    rw [hpart, hhid, mapGet_mapSet_ne _ _ hostNe]
    exact hph
  · intro p hget
    have hne0 : room.participants ≠ [] := by
      intro hc
      rw [hc] at hget
      simp [mapGet] at hget
    obtain ⟨hcnt, ph, hph, phh⟩ := hwf hne0
    refine ⟨removeParticipant_destroys st room participantId p hroom hget, ?_⟩
    intro hdel
    obtain ⟨room2, h1, _, _, _, _, _, _, _, _, _, hother, hhostc, _, _⟩ :=
      removeParticipant_room_eq st room participantId p hroom hget hdel
    by_cases hhost : room.hostId = participantId
    · cases hdl : mapDelete room.participants participantId with
      | nil => exact absurd hdl hdel
      | cons hd rest =>
        obtain ⟨nid, np⟩ := hd
        obtain ⟨hpart, hhid⟩ := hhostc hhost nid np rest hdl
        have hpph : p = ph := by
          rw [hhost] at hph
          exact Option.some_inj.mp (hget.symm.trans hph)
        have hpt : p.isHost = true := hpph ▸ phh
        have hdelcnt : (mapDelete room.participants participantId).countP
            (fun q => q.2.isHost) = 0 := by
          have hcd := countP_mapDelete (fun q => q.2.isHost)
            room.participants participantId p hnd hget
          rw [if_pos (by simp [hpt])] at hcd
          have hc1 : room.participants.countP (fun q => q.2.isHost) = 1 := hcnt
          omega
        rw [hdl, List.countP_cons] at hdelcnt
        have hcnt2 : hostCount room2 = 1 := by
          unfold hostCount
          rw [hpart]
          rw [List.countP_cons]
          have h0 := Nat.eq_zero_of_add_eq_zero_right hdelcnt
          rw [h0]
          simp
        refine ⟨room2, h1, hcnt2, fun _ => ⟨hcnt2, ?_⟩, ?_, ?_⟩
        · refine ⟨{ np with isHost := true }, ?_, rfl⟩
          rw [hpart, hhid, mapGet_cons, if_pos rfl]
        · intro _
          rw [hhid]
          rfl
        · intro hc
          exact absurd hhost hc
    · obtain ⟨hpart, hhid⟩ := hother hhost
      have hpf : p.isHost = false := by
        by_contra hcc
        rw [Bool.not_eq_false] at hcc
        have hdc := countP_mapDelete (fun q => q.2.isHost)
          room.participants participantId p hnd hget
        rw [if_pos (by simp [hcc])] at hdc
        have hphmem : (room.hostId, ph) ∈ mapDelete room.participants
            participantId :=
          mem_of_mapGet (by
            rw [mapGet_mapDelete_ne _ hhost]
            exact hph)
        have hpos2 : 0 < (mapDelete room.participants participantId).countP
            (fun q => q.2.isHost) :=
          List.countP_pos.mpr ⟨(room.hostId, ph), hphmem, by simp [phh]⟩
        have hc1 : room.participants.countP (fun q => q.2.isHost) = 1 := hcnt
        omega
      have hdc := countP_mapDelete (fun q => q.2.isHost)
        room.participants participantId p hnd hget
      rw [if_neg (by simp [hpf])] at hdc
      have hcnt2 : hostCount room2 = 1 := by
        unfold hostCount
        rw [hpart]
        have hc1 : room.participants.countP (fun q => q.2.isHost) = 1 := hcnt
        omega
      refine ⟨room2, h1, hcnt2, fun _ => ⟨hcnt2, ?_⟩, ?_, fun _ => hhid⟩
      · refine ⟨ph, ?_, phh⟩
        rw [hpart, hhid, mapGet_mapDelete_ne _ hhost]
        exact hph
      · intro hc
        exact absurd hc hhost

/-- Registry fixture around `sampleRoom`. -/
def sampleState : ManagerState :=
  { room := some sampleRoom
    sessionTokenToRoom := [("tokA", "WXYZ"), ("tokB", "WXYZ")]
    sessionTokenToId := [("tokA", "A"), ("tokB", "B")]
    disconnectTimers := [] }

/-- Witness for C7: removing host A of `sampleRoom` transfers host status to
B, the first remaining participant. -/
theorem host_invariant_witness :
    ∃ room2, (removeParticipant sampleState "A").1.room = some room2 ∧
      hostCount room2 = 1 ∧
      (mapKeys (mapDelete sampleRoom.participants "A")).head? =
        some room2.hostId := by
  have hwf : HostWf sampleRoom := by
    intro _
    refine ⟨by decide, ⟨sampleParticipant "A" true, ?_, rfl⟩⟩
    rw [show sampleRoom.hostId = "A" from rfl]
    rw [show sampleRoom.participants =
      [("A", sampleParticipant "A" true), ("B", sampleParticipant "B" false)]
      from rfl]
    rw [mapGet_cons, if_pos rfl]
  have h := host_invariant sampleState sampleRoom "A" rfl hwf (by decide)
  obtain ⟨room2, h1, h2, _, h4, _⟩ :=
    (h.2.2 (sampleParticipant "A" true) (by
      rw [show sampleRoom.participants =
        [("A", sampleParticipant "A" true), ("B", sampleParticipant "B" false)]
        from rfl]
      rw [mapGet_cons, if_pos rfl])).2 (by decide)
  exact ⟨room2, h1, h2, h4 rfl⟩

/-! ## C10: frame effects of `removeParticipant` on votes and counters -/

theorem length_mapDelete {α : Type} :
    ∀ (m : List (String × α)) (k : String) (v : α),
      (mapKeys m).Nodup → mapGet m k = some v →
      (mapDelete m k).length + 1 = m.length := by
  intro m
  induction m with
  | nil => intro k v _ h; simp [mapGet] at h
  | cons p m ih =>
    intro k v hnd h
    obtain ⟨a, b⟩ := p
    simp only [mapKeys_cons, List.nodup_cons] at hnd
    by_cases ha : a = k
    · subst ha
      rw [show mapDelete ((a, b) :: m) a = mapDelete m a from by
        simp [mapDelete], mapDelete_of_not_mem m a hnd.1]
      simp
    · rw [mapGet_cons, if_neg ha] at h
      rw [show mapDelete ((a, b) :: m) k = (a, b) :: mapDelete m k from by
        simp [mapDelete, ha]]
      simp only [List.length_cons]
      have := ih k v hnd.2 h
      omega

theorem setAdd_of_not_mem (s : List String) (x : String) (h : x ∉ s) :
    setAdd s x = s ++ [x] := by
  unfold setAdd
  rw [if_neg]
  intro hc
  exact h (List.mem_of_elem_eq_true hc)

/-- **C10.** `removeParticipant` deletes the removed participant's filter
state, ready flag, probability pool and session-token entries, but leaves
`swipeVotes`, `rightSwipeCounts`, `leftSwipeCounts` and `swipeCounts`
untouched; consequently a departed participant's recorded right-swipe vote
still counts, and a remaining participant's right swipe can complete the
voter set against the now-smaller participant count and broadcast
`match_found`. -/
theorem removeParticipant_frame (st : ManagerState) (room : Room)
    (participantId : String) (p : Participant)
    (hroom : st.room = some room)
    (hnd : (mapKeys room.participants).Nodup)
    (hget : mapGet room.participants participantId = some p)
    (hne : mapDelete room.participants participantId ≠ []) :
    ∃ room2, (removeParticipant st participantId).1.room = some room2 ∧
      room2.filterStates = mapDelete room.filterStates participantId ∧
      room2.readyParticipants = setDelete room.readyParticipants participantId ∧
      room2.probabilityPools = mapDelete room.probabilityPools participantId ∧
      mapGet (removeParticipant st participantId).1.sessionTokenToRoom
        p.sessionToken = none ∧
      mapGet (removeParticipant st participantId).1.sessionTokenToId
        p.sessionToken = none ∧
      room2.swipeVotes = room.swipeVotes ∧
      room2.rightSwipeCounts = room.rightSwipeCounts ∧
      room2.leftSwipeCounts = room.leftSwipeCounts ∧
      room2.swipeCounts = room.swipeCounts ∧
      room2.masterCards = room.masterCards ∧
      room2.sessionStatus = room.sessionStatus ∧
      room2.participants.length + 1 = room.participants.length ∧
      (∀ cards swiper k voters pool card,
        room2.masterCards = some cards →
        room2.sessionStatus = .swiping →
        mapGet room2.probabilityPools swiper = some pool →
        mapGet room.swipeVotes k = some voters →
        swiper ∉ voters →
        voters.length + 1 = room2.participants.length →
        cards.find? (fun c => c.ratingKey == k) = some card →
        ServerMsg.matchFound card ∈ (handleSwipe room2 swiper k .right).2) := by
  obtain ⟨room2, h1, hfs, hrdy, hpp, hvt, hrs, hls, hsc, hmc, hst, hother,
    hhostc, ht1, ht2⟩ :=
    removeParticipant_room_eq st room participantId p hroom hget hne
  have hdl1 : (mapDelete room.participants participantId).length + 1 =
      room.participants.length :=
    length_mapDelete room.participants participantId p hnd hget
  have hplen : room2.participants.length + 1 = room.participants.length := by
    by_cases hhost : room.hostId = participantId
    · cases hdl : mapDelete room.participants participantId with
      | nil => exact absurd hdl hne
      | cons hd rest =>
        obtain ⟨nid, np⟩ := hd
        obtain ⟨hpart, -⟩ := hhostc hhost nid np rest hdl
        rw [hpart]
        rw [hdl] at hdl1
        simpa using hdl1
    · obtain ⟨hpart, -⟩ := hother hhost
      rw [hpart]
      exact hdl1
  refine ⟨room2, h1, hfs, hrdy, hpp, ht1, ht2, hvt, hrs, hls, hsc, hmc, hst,
    hplen, ?_⟩
  intro cards swiper k voters pool card hmc2 hss2 hp2 hv hnotin hlen hcard
  have hv2 : mapGet room2.swipeVotes k = some voters := by
    rw [hvt]; exact hv
  have hadd : setAdd voters swiper = voters ++ [swiper] :=
    setAdd_of_not_mem voters swiper hnotin
  have hlen2 : (setAdd ((mapGet room2.swipeVotes k).getD []) swiper).length =
      room2.participants.length := by
    rw [hv2, Option.getD_some, hadd, List.length_append, List.length_singleton]
    exact hlen
  simp only [handleSwipe, hmc2, hss2, hp2, Option.isNone_some, Bool.false_eq_true,
    if_false, reduceCtorEq, reduceIte]
  split <;>
    · simp only [mapGet_mapSet_self, Option.getD_some, hlen2, if_pos rfl, hcard]
      simp

/-- Registry fixture around the three-participant room `scenDRoom`. -/
def scenC10State : ManagerState :=
  { room := some scenDRoom
    sessionTokenToRoom := [("tokA", "WXYZ"), ("tokB", "WXYZ"), ("tokC", "WXYZ")]
    sessionTokenToId := [("tokA", "A"), ("tokB", "B"), ("tokC", "C")]
    disconnectTimers := [] }

/-- Witness for C10: host `A`, who right-swiped `"7"` earlier, is removed
from `scenDRoom`; the vote survives, and `B`'s right swipe on `"7"`
completes the 2-of-2 voter set (counting departed `A`) and broadcasts
`match_found`. -/
theorem removeParticipant_frame_witness :
    ∃ room2, (removeParticipant scenC10State "A").1.room = some room2 ∧
      room2.swipeVotes = scenDRoom.swipeVotes ∧
      room2.participants.length + 1 = scenDRoom.participants.length ∧
      ServerMsg.matchFound (sampleCard "7") ∈ (handleSwipe room2 "B" "7" .right).2 := by
  obtain ⟨room2, h1, _, _, hpp, _, _, hvt, _, _, _, hmc, hst, hplen, hcons⟩ :=
    removeParticipant_frame scenC10State scenDRoom "A" (sampleParticipant "A" true)
      rfl (by decide) rfl (by decide)
  refine ⟨room2, h1, hvt, hplen, ?_⟩
  refine hcons [sampleCard "7", sampleCard "9"] "B" "7" ["A"] donePool
    (sampleCard "7") (by rw [hmc]; rfl) (by rw [hst]; rfl) (by rw [hpp]; rfl)
    rfl (by decide) ?_ rfl
  have h3 : scenDRoom.participants.length = 3 := rfl
  have h1l : (["A"] : List String).length = 1 := rfl
  omega

/-! ## C6: disconnect / reconnect round-trip -/

theorem mapSet_mapSet {α : Type} (m : List (String × α)) (k : String) (v v' : α) :
    mapSet (mapSet m k v) k v' = mapSet m k v' := by
  induction m with
  | nil => simp [mapSet]
  | cons p m ih =>
    by_cases h : p.1 = k
    · simp [mapSet, h]
    · simp [mapSet, h, ih]

/-- Overwriting the binding of `k` with a participant carrying the same
public info leaves the info roster unchanged. -/
theorem map_toInfo_mapSet (m : List (String × Participant)) (k : String)
    (p q : Participant) (hget : mapGet m k = some p)
    (hinfo : toParticipantInfo q = toParticipantInfo p) :
    (mapSet m k q).map (fun e => toParticipantInfo e.2) =
      m.map (fun e => toParticipantInfo e.2) := by
  induction m with
  | nil => simp [mapGet] at hget
  | cons a m ih =>
    rw [mapGet_cons] at hget
    by_cases h : a.1 = k
    · rw [if_pos h] at hget
      obtain rfl := Option.some_inj.mp hget
      simp [mapSet, h, hinfo]
    · rw [if_neg h] at hget
      simp [mapSet, h, ih hget]

/-- The participant mutation performed by `handleDisconnect`. -/
def markDisconnected (p : Participant) (now : Int) : Participant :=
  { p with socket := (none : Option Nat)
           connectionStatus := ConnectionStatus.reconnecting
           disconnectedAt := some now }

/-- The participant mutation performed by `reconnectParticipant`. -/
def markReconnected (p : Participant) (socket : Nat) : Participant :=
  { p with socket := some socket
           connectionStatus := ConnectionStatus.connected
           disconnectedAt := (none : Option Int) }

/-- **C6.** A connected participant who disconnects and then reconnects
within the grace period (i.e. before the disconnect timer removes them)
using their session token gets back a room snapshot with the same
participant roster and phase as before the disconnect, together with a
replay that in the `filtering` and `swiping` phases starts with
`start_filtering` followed by one `participant_ready` per currently-ready
participant, and in the `swiping` phase additionally ends with a
`swiping_started` event carrying exactly their currently served cards and
their swiped count; the probability pools are untouched, so no cards are
gained or lost. -/
theorem reconnect_roundtrip (st : ManagerState) (room : Room) (socket : Nat)
    (pid tok : String) (p : Participant) (now : Int)
    (hroom : st.room = some room)
    (hget : mapGet room.participants pid = some p)
    (hconn : p.connectionStatus = ConnectionStatus.connected)
    (htr : mapGet st.sessionTokenToRoom tok = some room.code)
    (hti : mapGet st.sessionTokenToId tok = some pid) :
    ∃ st2 info replay bcast,
      reconnectParticipant (handleDisconnect st pid now).1 socket tok =
        Except.ok (st2, info, replay, bcast) ∧
      info.participants = room.participants.map (fun e => toParticipantInfo e.2) ∧
      info.phase = room.phase ∧
      (room.phase = RoomPhase.filtering →
        replay = ServerMsg.startFiltering ::
          room.readyParticipants.map (fun r => ServerMsg.participantReady r)) ∧
      (room.phase = RoomPhase.swiping →
        ∀ pool, mapGet room.probabilityPools pid = some pool →
          replay = (ServerMsg.startFiltering ::
              room.readyParticipants.map (fun r => ServerMsg.participantReady r)) ++
            [ServerMsg.swipingStarted pool.totalSize
              (pool.served.map (fun e => e.2.card)) (some pool.swiped.length)]) ∧
      (room.phase ≠ RoomPhase.filtering → room.phase ≠ RoomPhase.swiping →
        replay = []) ∧
      ∃ room2, st2.room = some room2 ∧
        room2.participants.map (fun e => toParticipantInfo e.2) =
          room.participants.map (fun e => toParticipantInfo e.2) ∧
        room2.phase = room.phase ∧
        room2.probabilityPools = room.probabilityPools := by
  have hd1 : (handleDisconnect st pid now).1 =
      { st with
        room := some { room with
          participants := mapSet room.participants pid (markDisconnected p now) }
        disconnectTimers := setAdd st.disconnectTimers pid } := by
    simp only [handleDisconnect, hroom, hget, markDisconnected]
  have hget1 : mapGet (mapSet room.participants pid (markDisconnected p now))
      pid = some (markDisconnected p now) :=
    mapGet_mapSet_self _ _ _
  have hinfo : toParticipantInfo (markReconnected (markDisconnected p now) socket) =
      toParticipantInfo p := by
    simp only [toParticipantInfo, markReconnected, markDisconnected, hconn]
  rw [hd1]
  simp only [reconnectParticipant, htr, hti, hget1, ne_eq, not_true_eq_false,
    if_false, reduceCtorEq, reduceIte, ite_false]
  refine ⟨_, _, _, _, rfl, ?_, rfl, ?_, ?_, ?_, ?_⟩
  · simp only [toRoomInfo]
    rw [mapSet_mapSet]
    exact map_toInfo_mapSet room.participants pid p _ hget hinfo
  · intro hph
    rw [hph]
    simp
  · intro hph pool hpool
    rw [hph]
    simp only [hpool]
    simp
  · intro h1 h2
    rw [if_neg (by rw [not_or]; exact ⟨h1, h2⟩), if_neg h2]
    rfl
  · refine ⟨_, rfl, ?_, rfl, rfl⟩
    rw [mapSet_mapSet]
    exact map_toInfo_mapSet room.participants pid p _ hget hinfo

/-- Witness for C6: `A` disconnects from `sampleRoom` and reconnects with
token `"tokA"`; the roster and phase survive and the replay reconstructs
`A`'s served queue (`"9"` served, none swiped). -/
theorem reconnect_roundtrip_witness :
    ∃ st2 info replay bcast,
      reconnectParticipant (handleDisconnect sampleState "A" 5).1 42 "tokA" =
        Except.ok (st2, info, replay, bcast) ∧
      info.participants =
        sampleRoom.participants.map (fun e => toParticipantInfo e.2) ∧
      info.phase = sampleRoom.phase ∧
      replay = [ServerMsg.startFiltering, ServerMsg.participantReady "A",
        ServerMsg.participantReady "B",
        ServerMsg.swipingStarted 2 [sampleCard "9"] (some 0)] := by
  obtain ⟨st2, info, replay, bcast, hok, hpart, hphase, -, hsw, -, -⟩ :=
    reconnect_roundtrip sampleState sampleRoom 42 "A" "tokA"
      (sampleParticipant "A" true) 5 rfl rfl rfl rfl rfl
  refine ⟨st2, info, replay, bcast, hok, hpart, hphase, ?_⟩
  rw [hsw rfl samplePool rfl]
  rfl

end Tandarr
